import Mathlib

/-!
# Verification of the competitor-intelligence extraction pipeline

Shallow embedding of the Python sources of `comp_intel_app`
(`src/agents/llm_utils.py`, `src/agents/scraper_agent.py`,
`src/agents/competitor_intelligence.py`, `src/utils/product_cleaner.py`)
and proofs about the embedded definitions.

Modelling conventions:
* Python values (the untyped dict/list/str/number/None records that flow
  through the pipeline) are modelled by the inductive type `PyVal`;
  dictionaries are insertion-ordered association lists.
* Python text is modelled as `List Char` / `String`; indices are code-point
  indices, matching Python `str` semantics.
* Python floats are modelled as rationals: every numeric literal appearing
  in the claims is decimal, so values are exact; IEEE rounding is out of
  scope for the properties proved here.
* `re` character classes are modelled over the ASCII range that the
  scraped inputs use (`\s`, `\w`, `\d` restricted to ASCII).
* Fallible code returns `Option`/`Except`; functions that the source
  documents as never raising are total Lean functions.
-/

set_option maxHeartbeats 4000000
set_option maxRecDepth 8000

/-- A Python value as it occurs in the pipeline's loosely-typed records.
Dictionaries are insertion-ordered association lists, as in CPython. -/
inductive PyVal : Type where
  | pnone : PyVal
  | pbool : Bool → PyVal
  | pnum : ℚ → PyVal
  | pstr : String → PyVal
  | plist : List PyVal → PyVal
  | pdict : List (String × PyVal) → PyVal
  deriving Repr

open PyVal

mutual
/-- Decidable equality of Python values (mutually with lists and dicts,
so that evaluation stays kernel-reducible). -/
def pyValDecEq : (a b : PyVal) → Decidable (a = b)
  | pnone, pnone => isTrue rfl
  | pbool a, pbool b =>
      match decEq a b with
      | isTrue h => isTrue (by rw [h])
      | isFalse h => isFalse (fun hh => h (PyVal.pbool.inj hh))
  | pnum a, pnum b =>
      match decEq a b with
      | isTrue h => isTrue (by rw [h])
      | isFalse h => isFalse (fun hh => h (PyVal.pnum.inj hh))
  | pstr a, pstr b =>
      match decEq a b with
      | isTrue h => isTrue (by rw [h])
      | isFalse h => isFalse (fun hh => h (PyVal.pstr.inj hh))
  | plist a, plist b =>
      match pyListDecEq a b with
      | isTrue h => isTrue (by rw [h])
      | isFalse h => isFalse (fun hh => h (PyVal.plist.inj hh))
  | pdict a, pdict b =>
      match pyDictDecEq a b with
      | isTrue h => isTrue (by rw [h])
      | isFalse h => isFalse (fun hh => h (PyVal.pdict.inj hh))
  | pnone, pbool _ => isFalse nofun
  | pnone, pnum _ => isFalse nofun
  | pnone, pstr _ => isFalse nofun
  | pnone, plist _ => isFalse nofun
  | pnone, pdict _ => isFalse nofun
  | pbool _, pnone => isFalse nofun
  | pbool _, pnum _ => isFalse nofun
  | pbool _, pstr _ => isFalse nofun
  | pbool _, plist _ => isFalse nofun
  | pbool _, pdict _ => isFalse nofun
  | pnum _, pnone => isFalse nofun
  | pnum _, pbool _ => isFalse nofun
  | pnum _, pstr _ => isFalse nofun
  | pnum _, plist _ => isFalse nofun
  | pnum _, pdict _ => isFalse nofun
  | pstr _, pnone => isFalse nofun
  | pstr _, pbool _ => isFalse nofun
  | pstr _, pnum _ => isFalse nofun
  | pstr _, plist _ => isFalse nofun
  | pstr _, pdict _ => isFalse nofun
  | plist _, pnone => isFalse nofun
  | plist _, pbool _ => isFalse nofun
  | plist _, pnum _ => isFalse nofun
  | plist _, pstr _ => isFalse nofun
  | plist _, pdict _ => isFalse nofun
  | pdict _, pnone => isFalse nofun
  | pdict _, pbool _ => isFalse nofun
  | pdict _, pnum _ => isFalse nofun
  | pdict _, pstr _ => isFalse nofun
  | pdict _, plist _ => isFalse nofun

/-- Decidable equality of lists of Python values. -/
def pyListDecEq : (a b : List PyVal) → Decidable (a = b)
  | [], [] => isTrue rfl
  | a :: as, b :: bs =>
      match pyValDecEq a b with
      | isTrue h1 =>
          match pyListDecEq as bs with
          | isTrue h2 => isTrue (by rw [h1, h2])
          | isFalse h2 => isFalse (fun hh => h2 (List.cons.inj hh).2)
      | isFalse h1 => isFalse (fun hh => h1 (List.cons.inj hh).1)
  | [], _ :: _ => isFalse nofun
  | _ :: _, [] => isFalse nofun

/-- Decidable equality of Python dicts (association lists). -/
def pyDictDecEq : (a b : List (String × PyVal)) → Decidable (a = b)
  | [], [] => isTrue rfl
  | (k1, v1) :: as, (k2, v2) :: bs =>
      match decEq k1 k2 with
      | isTrue hk =>
          match pyValDecEq v1 v2 with
          | isTrue hv =>
              match pyDictDecEq as bs with
              | isTrue h2 => isTrue (by rw [hk, hv, h2])
              | isFalse h2 => isFalse (fun hh => h2 (List.cons.inj hh).2)
          | isFalse hv =>
              isFalse (fun hh => hv (congrArg Prod.snd (List.cons.inj hh).1))
      | isFalse hk =>
          isFalse (fun hh => hk (congrArg Prod.fst (List.cons.inj hh).1))
  | [], _ :: _ => isFalse nofun
  | _ :: _, [] => isFalse nofun
end

instance : DecidableEq PyVal := pyValDecEq

/-- A record (a Python dict) as an insertion-ordered association list. -/
abbrev PyRec := List (String × PyVal)

/-- Python truthiness: `None`, `False`, `0`, `""`, `[]`, `{}` are falsy. -/
def pyTruthy : PyVal → Bool
  | pnone => false
  | pbool b => b
  | pnum q => q != 0
  | pstr s => s != ""
  | plist l => !l.isEmpty
  | pdict d => !d.isEmpty

/-- `d.get(k)` on a Python dict: first binding of the key, if any. -/
def dictGet (d : PyRec) (k : String) : Option PyVal :=
  (d.find? (fun kv => kv.1 == k)).map (·.2)

/-- `d.get(k, default)`. -/
def dictGetD (d : PyRec) (k : String) (v : PyVal) : PyVal :=
  (dictGet d k).getD v

/-- `d[k] = v` on a Python dict: overwrite the existing binding in place,
or append a new binding at the end (CPython insertion-order semantics). -/
def dictSet : PyRec → String → PyVal → PyRec
  | [], k, v => [(k, v)]
  | (k', v') :: rest, k, v =>
      if k' = k then (k', v) :: rest else (k', v') :: dictSet rest k v

/-- `str(value)` restricted to the shapes the claims exercise (the pipeline
only ever stringifies strings and `None`-checked values; containers and
numbers get a best-effort rendering). -/
def pyStr : PyVal → String
  | pnone => "None"
  | pbool true => "True"
  | pbool false => "False"
  | pnum q => toString q
  | pstr s => s
  | plist _ => "<list>"
  | pdict _ => "<dict>"

/-- Python `\s` (ASCII range): space, tab, newline, carriage return,
form feed, vertical tab. -/
def isPySpace (c : Char) : Bool :=
  c = ' ' ∨ c = '\t' ∨ c = '\n' ∨ c = '\r' ∨ c = '\x0c' ∨ c = '\x0b'

/-- Python `str.strip()` on a character list. -/
def pyStrip (l : List Char) : List Char :=
  ((l.dropWhile isPySpace).reverse.dropWhile isPySpace).reverse

/-- Python `str.lower()` (ASCII range; the currency symbols and punctuation
in the scraped inputs are unaffected by lowering). -/
def pyLower (l : List Char) : List Char := l.map Char.toLower

/-- One step of `re.sub(r"\s+", " ", s)`: collapse each maximal whitespace
run to a single space.  The flag records whether we are inside a run whose
replacement space has already been emitted. -/
def collapseWsAux : List Char → Bool → List Char
  | [], _ => []
  | c :: rest, inRun =>
      if isPySpace c then
        if inRun then collapseWsAux rest true else ' ' :: collapseWsAux rest true
      else c :: collapseWsAux rest false

/-- `re.sub(r"\s+", " ", s)`. -/
def collapseWs (l : List Char) : List Char := collapseWsAux l false

/-! ## `src/utils/product_cleaner.py` -/

/-- Characters allowed in a URL scheme by `urllib.parse` (`a-z`, `0-9`,
`+`, `-`, `.`). -/
def isSchemeChar (c : Char) : Bool :=
  c.isAlpha ∨ c.isDigit ∨ c = '+' ∨ c = '-' ∨ c = '.'

/-- Index of the first `:` in the list, if any. -/
def findColon : List Char → Option Nat
  | [] => none
  | c :: rest =>
      if c = ':' then some 0 else (findColon rest).map (· + 1)

/-- `urllib.parse.urlparse(url).netloc`: strip a leading `scheme:` when the
prefix before the first colon is a nonempty run of scheme characters, then,
if the remainder starts with `//`, take everything up to the next `/`, `?`
or `#`. -/
def urlNetloc (s : String) : String :=
  let l := s.data
  let rest :=
    match findColon l with
    | some i =>
        if 0 < i ∧ (l.take i).all isSchemeChar then l.drop (i + 1) else l
    | none => l
  match rest with
  | '/' :: '/' :: tail =>
      String.mk (tail.takeWhile (fun c => ¬(c = '/' ∨ c = '?' ∨ c = '#')))
  | _ => ""

/-- `_domain_from_url` from `src/utils/product_cleaner.py`: falsy URL maps
to `""`, otherwise the lowercased netloc. -/
def _domain_from_url (url : PyVal) : String :=
  if ¬ pyTruthy url then ""
  else String.mk (pyLower (urlNetloc (pyStr url)).data)

/-- `_normalize_text` from `src/utils/product_cleaner.py`:
`str(value).strip().lower()` with whitespace runs collapsed; `None → ""`. -/
def _normalize_text (value : PyVal) : String :=
  match value with
  | pnone => ""
  | v => String.mk (collapseWs (pyLower (pyStrip (pyStr v).data)))

/-- `re.search(r"[£$€]", s)`: the first currency symbol of the string. -/
def firstCurrency (l : List Char) : Option Char :=
  l.find? (fun c => c = '£' ∨ c = '$' ∨ c = '€')

/-- The continuation of a numeric token starting at a digit:
`[\d]+(?:\.[\d]+)?` matched greedily from the front of `l`. -/
def numTokenFrom (l : List Char) : List Char :=
  let ds := l.takeWhile Char.isDigit
  match l.dropWhile Char.isDigit with
  | '.' :: r2 =>
      if (r2.headD 'x').isDigit then ds ++ '.' :: r2.takeWhile Char.isDigit
      else ds
  | _ => ds

/-- `re.search(r"[\d]+(?:\.[\d]+)?", s)`: the leftmost numeric token. -/
def firstNumTok : List Char → Option (List Char)
  | [] => none
  | c :: rest =>
      if c.isDigit then some (numTokenFrom (c :: rest)) else firstNumTok rest

/-- `_normalize_money` from `src/utils/product_cleaner.py`.  `None → ""`;
blank after stripping → `""`; when the stripped string has both a currency
symbol and (after removing commas) a numeric token, the result is the first
symbol followed by the first numeric token; otherwise the stripped string
itself is returned. -/
def _normalize_money (value : PyVal) : String :=
  match value with
  | pnone => ""
  | v =>
      let s := pyStrip (pyStr v).data
      if s = [] then ""
      else
        let currency := firstCurrency s
        let num := firstNumTok (s.filter (fun c => ¬ c = ','))
        match currency, num with
        | some c, some n => String.mk (c :: n)
        | _, _ => String.mk s

/-- The dedupe identity of `dedupe_products`: provider domain, normalized
name, normalized monthly price, normalized annual price, normalized
excess. -/
abbrev DedupeKey := String × String × String × String × String

/-- The `DedupeKey` computed for one record inside `dedupe_products`. -/
def dedupeKey (p : PyRec) : DedupeKey :=
  ( _domain_from_url (dictGetD p "source_url" pnone)
  , _normalize_text (dictGetD p "product_name" pnone)
  , _normalize_money (dictGetD p "price_monthly" pnone)
  , _normalize_money (dictGetD p "price_annual" pnone)
  , _normalize_money (dictGetD p "excess" pnone) )

/-- Creation of a fresh `seen` entry in `dedupe_products`: copy the record,
set `_provider_domain`, and start `_source_urls` with the source URL when
it is truthy. -/
def dedupeNewEntry (p : PyRec) : PyRec :=
  let provider := _domain_from_url (dictGetD p "source_url" pnone)
  let srcs : List PyVal :=
    match dictGet p "source_url" with
    | some v => if pyTruthy v then [v] else []
    | none => []
  dictSet (dictSet p "_provider_domain" (pstr provider)) "_source_urls" (plist srcs)

/-- The `_source_urls` working list of a `seen` entry
(`existing.get("_source_urls", [])`). -/
def sourceUrlsOf (e : PyRec) : List PyVal :=
  match dictGet e "_source_urls" with
  | some (plist l) => l
  | _ => []

/-- Backfill one optional field from a later duplicate
(`if not existing.get(field) and p.get(field): existing[field] = ...`). -/
def backfillField (e p : PyRec) (field : String) : PyRec :=
  if ¬ pyTruthy (dictGetD e field pnone) ∧ pyTruthy (dictGetD p field pnone) then
    dictSet e field (dictGetD p field pnone)
  else e

/-- Merge a duplicate record `p` into the retained `seen` entry `e`
(the `else` branch of the `dedupe_products` loop). -/
def dedupeMerge (e p : PyRec) : PyRec :=
  let e :=
    match dictGet p "source_url" with
    | some v =>
        if pyTruthy v ∧ ¬ (sourceUrlsOf e).contains v then
          dictSet e "_source_urls" (plist (sourceUrlsOf e ++ [v]))
        else e
    | none => e
  let e := backfillField e p "special_offers"
  let e := backfillField e p "terms_conditions"
  let e := backfillField e p "category"
  if ¬ pyTruthy (dictGetD e "features" pnone) ∧
      pyTruthy (dictGetD p "features" pnone) then
    dictSet e "features" (dictGetD p "features" pnone)
  else e

/-- Lookup in the insertion-ordered `seen` map. -/
def seenLookup (seen : List (DedupeKey × PyRec)) (k : DedupeKey) : Option PyRec :=
  (seen.find? (fun kv => kv.1 = k)).map (·.2)

/-- In-place update of the value stored under a key of `seen`. -/
def seenUpdate (seen : List (DedupeKey × PyRec)) (k : DedupeKey)
    (f : PyRec → PyRec) : List (DedupeKey × PyRec) :=
  match seen with
  | [] => []
  | (k', v) :: rest =>
      if k' = k then (k', f v) :: rest else (k', v) :: seenUpdate rest k f

/-- The main loop of `dedupe_products`: non-dicts are skipped; a new key
appends a fresh entry, a seen key merges into the stored entry. -/
def dedupeLoop : List PyVal → List (DedupeKey × PyRec) → List (DedupeKey × PyRec)
  | [], seen => seen
  | p :: rest, seen =>
      match p with
      | pdict d =>
          let k := dedupeKey d
          match seenLookup seen k with
          | none => dedupeLoop rest (seen ++ [(k, dedupeNewEntry d)])
          | some _ => dedupeLoop rest (seenUpdate seen k (fun e => dedupeMerge e d))
      | _ => dedupeLoop rest seen

/-- Final pass of `dedupe_products`: replace `source_url` with the
newline-joined collected URLs when any were collected. -/
def dedupeFinalize (e : PyRec) : PyRec :=
  let urls := sourceUrlsOf e
  if urls.isEmpty then e
  else
    dictSet e "source_url"
      (pstr (String.intercalate "\n" (urls.map pyStr)))

/-- The dedupe statistics dictionary returned by `dedupe_products`. -/
structure DedupeStats where
  input_count : Nat
  output_count : Nat
  duplicates_removed : Nat
  deriving DecidableEq, Repr

/-- `dedupe_products` from `src/utils/product_cleaner.py`. -/
def dedupe_products (products : List PyVal) : List PyRec × DedupeStats :=
  if products.isEmpty then ([], ⟨0, 0, 0⟩)
  else
    let seen := dedupeLoop products []
    let deduped := seen.map (fun kv => dedupeFinalize kv.2)
    let input_count := (products.filter (fun p => match p with
      | pdict _ => true
      | _ => false)).length
    let output_count := deduped.length
    (deduped, ⟨input_count, output_count, input_count - output_count⟩)


/-! ### Counting lemmas for `dedupe_products` (claim C4) -/

/-- Accumulate the keys of a record stream into an insertion-ordered list of
first occurrences (the key structure of the `seen` dict). -/
def mergeKeysAux (acc : List DedupeKey) : List DedupeKey → List DedupeKey
  | [] => acc
  | k :: rest =>
      if k ∈ acc then mergeKeysAux acc rest else mergeKeysAux (acc ++ [k]) rest

theorem seenUpdate_map_fst (seen : List (DedupeKey × PyRec)) (k : DedupeKey)
    (f : PyRec → PyRec) :
    (seenUpdate seen k f).map Prod.fst = seen.map Prod.fst := by
  induction seen with
  | nil => rfl
  | cons hd tl ih =>
      obtain ⟨k', v⟩ := hd
      by_cases h : k' = k <;> simp [seenUpdate, h, ih]

theorem seenLookup_eq_none (seen : List (DedupeKey × PyRec)) (k : DedupeKey) :
    seenLookup seen k = none ↔ k ∉ seen.map Prod.fst := by
  unfold seenLookup
  rcases hf : List.find? (fun kv => decide (kv.1 = k)) seen with _ | kv
  · rw [hf]
    rw [List.find?_eq_none] at hf
    simp only [Option.map_none']
    constructor
    · intro _ hk
      obtain ⟨⟨k', v⟩, hmem, hfst⟩ := List.mem_map.mp hk
      have := hf _ hmem
      simp only [decide_eq_true_eq] at this
      exact this hfst
    · intro _; trivial
  · have hkv := List.find?_some hf
    have hmem := List.mem_of_find?_eq_some hf
    simp only [decide_eq_true_eq] at hkv
    rw [hf]
    simp only [Option.map_some']
    constructor
    · intro h; exact Option.noConfusion h
    · intro h; exact absurd (List.mem_map.mpr ⟨kv, hmem, hkv⟩) h

theorem dedupeLoop_map_fst (ps : List PyVal) :
    ∀ seen : List (DedupeKey × PyRec),
      (dedupeLoop ps seen).map Prod.fst =
        mergeKeysAux (seen.map Prod.fst)
          (ps.filterMap (fun p => match p with
            | pdict d => some (dedupeKey d)
            | _ => none)) := by
  induction ps with
  | nil => intro seen; rfl
  | cons p rest ih =>
      intro seen
      match p with
      | pnone => simpa using ih seen
      | pbool b => simpa using ih seen
      | pnum q => simpa using ih seen
      | pstr s => simpa using ih seen
      | plist l => simpa using ih seen
      | pdict d =>
          simp only [dedupeLoop, List.filterMap_cons]
          rcases hlk : seenLookup seen (dedupeKey d) with _ | e
          · have hnot : dedupeKey d ∉ seen.map Prod.fst :=
              (seenLookup_eq_none seen (dedupeKey d)).mp hlk
            rw [ih (seen ++ [(dedupeKey d, dedupeNewEntry d)])]
            simp [mergeKeysAux, hnot]
          · have hmem : dedupeKey d ∈ seen.map Prod.fst := by
              by_contra hc
              rw [← seenLookup_eq_none seen (dedupeKey d)] at hc
              rw [hc] at hlk
              exact Option.noConfusion hlk
            rw [ih (seenUpdate seen (dedupeKey d) (fun e => dedupeMerge e d))]
            rw [seenUpdate_map_fst]
            simp [mergeKeysAux, hmem]

theorem mergeKeysAux_nodup (ks : List DedupeKey) :
    ∀ acc : List DedupeKey, acc.Nodup → (mergeKeysAux acc ks).Nodup := by
  induction ks with
  | nil => intro acc h; exact h
  | cons k rest ih =>
      intro acc h
      by_cases hk : k ∈ acc
      · simpa [mergeKeysAux, hk] using ih acc h
      · have : (acc ++ [k]).Nodup := by
          simp [List.nodup_append, h, hk]
        simpa [mergeKeysAux, hk] using ih (acc ++ [k]) this

theorem mergeKeysAux_toFinset (ks : List DedupeKey) :
    ∀ acc : List DedupeKey,
      (mergeKeysAux acc ks).toFinset = acc.toFinset ∪ ks.toFinset := by
  induction ks with
  | nil => intro acc; simp [mergeKeysAux]
  | cons k rest ih =>
      intro acc
      by_cases hk : k ∈ acc
      · rw [show mergeKeysAux acc (k :: rest) = mergeKeysAux acc rest by
          simp [mergeKeysAux, hk]]
        rw [ih acc]
        ext x
        simp only [Finset.mem_union, List.mem_toFinset, List.mem_cons]
        constructor
        · rintro (h | h)
          · exact Or.inl h
          · exact Or.inr (Or.inr h)
        · rintro (h | h | h)
          · exact Or.inl h
          · exact Or.inl (h ▸ hk)
          · exact Or.inr h
      · rw [show mergeKeysAux acc (k :: rest) = mergeKeysAux (acc ++ [k]) rest by
          simp [mergeKeysAux, hk]]
        rw [ih (acc ++ [k])]
        ext x
        simp only [Finset.mem_union, List.mem_toFinset, List.mem_append,
          List.mem_singleton, List.mem_cons]
        tauto

theorem mergeKeysAux_length_nil (ks : List DedupeKey) :
    (mergeKeysAux [] ks).length = ks.dedup.length := by
  have hnd : (mergeKeysAux [] ks).Nodup := mergeKeysAux_nodup ks [] (by simp)
  have hfs : (mergeKeysAux [] ks).toFinset = ks.toFinset := by
    rw [mergeKeysAux_toFinset ks []]
    simp
  calc (mergeKeysAux [] ks).length
      = (mergeKeysAux [] ks).toFinset.card :=
        (List.toFinset_card_of_nodup hnd).symm
    _ = ks.toFinset.card := by rw [hfs]
    _ = ks.dedup.length := List.card_toFinset (l := ks)

/-- The `DedupeKey` of a Python value when it is a dict, as filtered by the
`dedupe_products` loop. -/
def keyOfPyVal : PyVal → Option DedupeKey
  | pdict d => some (dedupeKey d)
  | _ => none

theorem filterMap_keyOf_map_pdict (recs : List PyRec) :
    (recs.map pdict).filterMap
        (fun p => match p with
          | pdict d => some (dedupeKey d)
          | _ => none) = recs.map dedupeKey := by
  induction recs with
  | nil => rfl
  | cons r rest ih => simp [ih]

/-- C4: for an input list of record mappings, `dedupe_products` returns
exactly one merged record per distinct `DedupeKey` (provider domain from
`source_url`, normalized `product_name`, normalized `price_monthly`,
normalized `price_annual`, normalized `excess`): records with identical
keys are merged into one.  With `N = recs.length` inputs and
`M = (recs.map dedupeKey).dedup.length` distinct keys, the output has
exactly `M` records. -/
theorem dedupe_products_distinct_key_count (recs : List PyRec) :
    (dedupe_products (recs.map pdict)).1.length =
      ((recs.map dedupeKey).dedup).length := by
  rcases recs with _ | ⟨r, rest⟩
  · simp [dedupe_products]
  · unfold dedupe_products
    rw [if_neg (by simp)]
    simp only [List.length_map]
    have hlen : (dedupeLoop ((r :: rest).map pdict) []).length
        = ((dedupeLoop ((r :: rest).map pdict) []).map Prod.fst).length := by
      simp
    rw [hlen, dedupeLoop_map_fst (((r :: rest)).map pdict) []]
    rw [List.map_nil, filterMap_keyOf_map_pdict (r :: rest)]
    exact mergeKeysAux_length_nil _

/-- The reading of claim C5's description of money normalization, stated
from the spec's words for refutation: "the first currency symbol
concatenated with the first numeric token of the string". -/
def spec_money_token (s : String) : String :=
  let stripped := pyStrip s.data
  String.mk
    ((match firstCurrency stripped with
      | some c => [c]
      | none => [])
      ++ ((firstNumTok (stripped.filter (fun c => ¬ c = ','))).getD []))

/-- C5 counterexample: on the money-like string `"15.50 a month"` (no
currency symbol), `_normalize_money` returns the whole stripped string,
not the concatenation of the (empty) first currency symbol with the first
numeric token `"15.50"` that the claim prescribes. -/
theorem normalize_money_counterexample :
    _normalize_money (pstr "15.50 a month") ≠ spec_money_token "15.50 a month" ∧
    _normalize_money (pstr "15.50 a month") = "15.50 a month" ∧
    spec_money_token "15.50 a month" = "15.50" := by
  refine ⟨?_, ?_, ?_⟩ <;> decide

/-- C5 (amended): `_normalize_money` returns `""` for an absent value,
and returns the first currency symbol concatenated with the first numeric
token whenever the stripped string contains both (commas removed before
the numeric search); otherwise it returns the stripped string unchanged.
In particular `"£15.50 a month"` and `"£15.50"` normalize to the same
token. -/
theorem normalize_money_amended :
    _normalize_money pnone = "" ∧
    (∀ (s : String) (c : Char) (n : List Char),
        firstCurrency (pyStrip s.data) = some c →
        firstNumTok ((pyStrip s.data).filter (fun x => ¬ x = ',')) = some n →
        _normalize_money (pstr s) = String.mk (c :: n)) ∧
    _normalize_money (pstr "£15.50 a month") = _normalize_money (pstr "£15.50") := by
  refine ⟨rfl, ?_, by decide⟩
  intro s c n hc hn
  have hne : ¬ pyStrip s.data = [] := by
    intro h
    rw [h] at hc
    simp [firstCurrency] at hc
  simp only [_normalize_money, pyStr]
  rw [if_neg hne, hc, hn]

/-- Witness for the amended C5 theorem at the concrete input
`"£15.50 a month"`. -/
theorem normalize_money_amended_witness :
    _normalize_money (pstr "£15.50 a month") =
      String.mk ['£', '1', '5', '.', '5', '0'] :=
  normalize_money_amended.2.1 "£15.50 a month" '£' ['1', '5', '.', '5', '0']
    (by decide) (by decide)

/-! ## `_build_extraction_input` from `src/agents/llm_utils.py` -/

/-- Python `\w` (ASCII range): letters, digits, underscore. -/
def isWordChar (c : Char) : Bool := c.isAlphanum ∨ c = '_'

/-- Case-insensitive character match (`re.IGNORECASE`, ASCII range). -/
def ciEq (p c : Char) : Bool := p.toLower = c.toLower

/-- Match a literal pattern case-insensitively against the front of the
text; returns the remaining text on success. -/
def matchLitCI : List Char → List Char → Option (List Char)
  | [], t => some t
  | _ :: _, [] => none
  | p :: ps, c :: cs => if ciEq p c then matchLitCI ps cs else none

/-- `\s+`: consume at least one whitespace character, greedily. -/
def wsPlus (t : List Char) : Option (List Char) :=
  let k := (t.takeWhile isPySpace).length
  if k = 0 then none else some (t.drop k)

/-- `\b` after a match that ends in a word character: the next character
must not be a word character (or the text must end). -/
def boundaryAfter : List Char → Bool
  | [] => true
  | c :: _ => ¬ isWordChar c

/-- `\b` before a pattern that starts with a word character: the previous
character must not be a word character (or the match is at offset 0). -/
def prevNonWord : Option Char → Bool
  | none => true
  | some c => ¬ isWordChar c

/-- `[£$€]\s*\d`: a currency symbol, optional whitespace, then a digit.
Returns the consumed length. -/
def matchCurrencyDigit (_prev : Option Char) (t : List Char) : Option Nat :=
  match t with
  | [] => none
  | c :: rest =>
      if c = '£' ∨ c = '$' ∨ c = '€' then
        let k := (rest.takeWhile isPySpace).length
        match rest.drop k with
        | d :: _ => if d.isDigit then some (1 + k + 1) else none
        | [] => none
      else none

/-- Two literal words separated by `\s+`, e.g. `per\s+month`. -/
def matchTwoWord (w1 w2 : String) (t : List Char) : Option (List Char) :=
  (matchLitCI w1.data t).bind fun r1 =>
    (wsPlus r1).bind fun r2 => matchLitCI w2.data r2

/-- `\b(per\s+month|a\s+month)\b`: word boundary, then the first
alternative that matches and ends at a word boundary. -/
def matchPricingPhrase (prev : Option Char) (t : List Char) : Option Nat :=
  if ¬ prevNonWord prev then none
  else
    match matchTwoWord "per" "month" t with
    | some rest =>
        if boundaryAfter rest then some (t.length - rest.length)
        else
          match matchTwoWord "a" "month" t with
          | some rest2 =>
              if boundaryAfter rest2 then some (t.length - rest2.length) else none
          | none => none
    | none =>
        match matchTwoWord "a" "month" t with
        | some rest2 =>
            if boundaryAfter rest2 then some (t.length - rest2.length) else none
        | none => none

/-- An ordered alternation of word literals, each wrapped in `\b...\b`
(e.g. `\bannually\b|\byear\b`); the first alternative that matches with a
trailing boundary wins, later alternatives are tried when the earlier ones
fail (including a failed trailing boundary). -/
def matchWordAltsAux : List String → List Char → Option Nat
  | [], _ => none
  | w :: ws, t =>
      match matchLitCI w.data t with
      | some rest =>
          if boundaryAfter rest then some (t.length - rest.length)
          else matchWordAltsAux ws t
      | none => matchWordAltsAux ws t

/-- Boundary-guarded word alternation with the leading `\b` check. -/
def matchWordAlts (ws : List String) (prev : Option Char) (t : List Char) :
    Option Nat :=
  if ¬ prevNonWord prev then none else matchWordAltsAux ws t

/-- `re.finditer` driver: scan left to right; attempt a match at each
position at or past `minPos` (matches are non-overlapping: after a match
of length `len` at `pos`, the search resumes at `pos + len`). -/
def scanAux (m : Option Char → List Char → Option Nat) :
    List Char → Nat → Nat → Option Char → List (Nat × Nat)
  | [], _, _, _ => []
  | c :: rest, pos, minPos, prev =>
      if minPos ≤ pos then
        match m prev (c :: rest) with
        | some len =>
            (pos, pos + len) :: scanAux m rest (pos + 1) (pos + len) (some c)
        | none => scanAux m rest (pos + 1) minPos (some c)
      else scanAux m rest (pos + 1) minPos (some c)

/-- All matches of a pattern over the text, as `(start, end)` spans. -/
def reFinditer (m : Option Char → List Char → Option Nat) (text : List Char) :
    List (Nat × Nat) :=
  scanAux m text 0 0 none

/-- The context window around each match of one pattern:
`(max(0, start - pre), min(len, end + post))`. -/
def windowsOfPattern (m : Option Char → List Char → Option Nat)
    (text : List Char) (pre post : Nat) : List (Nat × Nat) :=
  (reFinditer m text).map (fun se => (se.1 - pre, min text.length (se.2 + post)))

/-- All windows collected by `_build_extraction_input`: the fixed prefix
window `(0, min(8000, len))` followed by the pattern windows (`pre = 1200`,
`post = 2400`) in the source's pattern order. -/
def buildWindows (html : List Char) : List (Nat × Nat) :=
  (0, min 8000 html.length) ::
    (windowsOfPattern matchCurrencyDigit html 1200 2400
      ++ windowsOfPattern matchPricingPhrase html 1200 2400
      ++ windowsOfPattern (matchWordAlts ["monthly"]) html 1200 2400
      ++ windowsOfPattern (matchWordAlts ["annually", "year"]) html 1200 2400
      ++ windowsOfPattern (matchWordAlts ["excess", "deductible"]) html 1200 2400
      ++ windowsOfPattern (matchWordAlts ["cover", "plan", "premium", "options"])
          html 1200 2400)

/-- Stable insertion (by start offset) used to model Python's stable
`list.sort(key=lambda x: x[0])`: a new element goes after all elements
with a smaller-or-equal key. -/
def insertWindow (w : Nat × Nat) : List (Nat × Nat) → List (Nat × Nat)
  | [] => [w]
  | x :: xs => if x.1 ≤ w.1 then x :: insertWindow w xs else w :: x :: xs

/-- Stable sort of the window list by start offset. -/
def sortWindows (l : List (Nat × Nat)) : List (Nat × Nat) :=
  l.foldl (fun acc w => insertWindow w acc) []

/-- Merge overlapping or touching windows into maximal runs (the `merged`
loop of `_build_extraction_input`); the accumulator is kept reversed so
the last-appended run is at the head. -/
def mergeWindows (l : List (Nat × Nat)) : List (Nat × Nat) :=
  (l.foldl
    (fun acc se =>
      match acc with
      | [] => [se]
      | (ls, le) :: rest =>
          if le < se.1 then se :: (ls, le) :: rest
          else (ls, max le se.2) :: rest)
    []).reverse

/-- The separator inserted between concatenated windows. -/
def snipSep : List Char := "\n\n<!-- SNIP -->\n\n".data

/-- The window-concatenation loop of `_build_extraction_input`: stop once
`total ≥ max_chars`, skip chunks that are whitespace-only, truncate the
chunk that would overshoot the remaining budget. -/
def buildParts (html : List Char) (maxChars : Nat) :
    List (Nat × Nat) → Nat → List (List Char)
  | [], _ => []
  | (s, e) :: rest, total =>
      if maxChars ≤ total then []
      else
        let chunk := (html.drop s).take (e - s)
        if (pyStrip chunk).isEmpty then buildParts html maxChars rest total
        else
          let chunk' :=
            if maxChars - total < chunk.length then chunk.take (maxChars - total)
            else chunk
          chunk' :: buildParts html maxChars rest (total + chunk'.length)

/-- `"sep".join(parts)` on character lists. -/
def joinParts (sep : List Char) : List (List Char) → List Char
  | [] => []
  | [p] => p
  | p :: q :: ps => p ++ sep ++ joinParts sep (q :: ps)

/-- `_build_extraction_input` from `src/agents/llm_utils.py`: empty input
gives the empty string; otherwise collect, sort and merge the windows and
concatenate them under the character budget, separated by the visible
`<!-- SNIP -->` marker. -/
def _build_extraction_input (html : List Char) (maxChars : Nat) : List Char :=
  if html.isEmpty then []
  else
    joinParts snipSep
      (buildParts html maxChars (mergeWindows (sortWindows (buildWindows html))) 0)

/-- The number of window chunks included in the output. -/
def numParts (html : List Char) (maxChars : Nat) : Nat :=
  (buildParts html maxChars (mergeWindows (sortWindows (buildWindows html))) 0).length



/-! ### Length accounting for `_build_extraction_input` (claim C1) -/

/-- Total character count of a list of chunks. -/
def sumLens (ps : List (List Char)) : Nat := (ps.map List.length).sum

theorem buildParts_sumLens_le (html : List Char) (maxChars : Nat) :
    ∀ (ws : List (Nat × Nat)) (total : Nat),
      sumLens (buildParts html maxChars ws total) ≤ maxChars - total := by
  intro ws
  induction ws with
  | nil => intro total; simp [buildParts, sumLens]
  | cons w rest ih =>
      intro total
      obtain ⟨s, e⟩ := w
      simp only [buildParts]
      by_cases hstop : maxChars ≤ total
      · simp [hstop, sumLens]
      · rw [if_neg hstop]
        by_cases hskip : (pyStrip ((html.drop s).take (e - s))).isEmpty
        · rw [if_pos hskip]; exact ih total
        · rw [if_neg hskip]
          by_cases htr : maxChars - total < ((html.drop s).take (e - s)).length
          · rw [if_pos htr]
            have hlen : (((html.drop s).take (e - s)).take (maxChars - total)).length
                ≤ maxChars - total := by
              simp [List.length_take]
            have ihx := ih (total + (((html.drop s).take (e - s)).take
              (maxChars - total)).length)
            simp only [sumLens, List.map_cons, List.sum_cons] at ihx ⊢
            omega
          · rw [if_neg htr]
            have hlen : ((html.drop s).take (e - s)).length ≤ maxChars - total := by
              omega
            have ihx := ih (total + ((html.drop s).take (e - s)).length)
            simp only [sumLens, List.map_cons, List.sum_cons] at ihx ⊢
            omega

theorem joinParts_length (sep : List Char) :
    ∀ ps : List (List Char),
      (joinParts sep ps).length = sumLens ps + sep.length * (ps.length - 1) := by
  intro ps
  induction ps with
  | nil => simp [joinParts, sumLens]
  | cons p rest ih =>
      cases rest with
      | nil => simp [joinParts, sumLens]
      | cons q rest' =>
          simp only [joinParts, List.length_append, sumLens, List.map_cons,
            List.sum_cons, List.length_cons] at *
          have hmul : sep.length * (rest'.length + 1 + 1 - 1) =
              sep.length * (rest'.length + 1 - 1) + sep.length := by
            have h1 : rest'.length + 1 + 1 - 1 = (rest'.length + 1 - 1) + 1 := by
              omega
            rw [h1, Nat.mul_succ]
          omega

/-- C1 (amended): the concatenated window content of
`_build_extraction_input` stays within the character budget, but each of
the separators joined between included windows adds its own
`snipSep.length = 17` characters on top, so the returned string is only
bounded by the budget plus `17 * (number of included windows - 1)`. -/
theorem build_extraction_input_length_amended (html : List Char) (maxChars : Nat) :
    (_build_extraction_input html maxChars).length ≤
      maxChars + snipSep.length * (numParts html maxChars - 1) := by
  unfold _build_extraction_input numParts
  by_cases h : html.isEmpty
  · simp [h]
  · simp only [h, Bool.false_eq_true, if_false, if_neg]
    rw [joinParts_length]
    have hsum := buildParts_sumLens_le html maxChars
      (mergeWindows (sortWindows (buildWindows html))) 0
    omega

/-! ### A concrete budget overflow for `_build_extraction_input` (claim C1) -/

/-- The two-character tail `"£5"` that carries the only pattern match of
the counterexample text. -/
def cexTail : List Char := ['£', '5']

/-- Counterexample text: 9201 filler characters (matching none of the six
patterns) followed by `"£5"`.  The filler pushes the currency match far
enough past the 8000-character context window that its own window does not
merge with it. -/
def cexHtml : List Char := List.replicate 9201 'z' ++ cexTail

theorem matchLitCI_mismatch (p : Char) (ps : List Char) (c : Char)
    (rest : List Char) (h : ciEq p c = false) :
    matchLitCI (p :: ps) (c :: rest) = none := by
  simp [matchLitCI, h]

theorem matchCurrencyDigit_z (prev : Option Char) (rest : List Char) :
    matchCurrencyDigit prev ('z' :: rest) = none := by
  simp [matchCurrencyDigit]

theorem matchPricingPhrase_z (prev : Option Char) (rest : List Char) :
    matchPricingPhrase prev ('z' :: rest) = none := by
  have hper : matchLitCI "per".data ('z' :: rest) = none :=
    matchLitCI_mismatch 'p' "er".data 'z' rest (by decide)
  have ha : matchLitCI "a".data ('z' :: rest) = none :=
    matchLitCI_mismatch 'a' [] 'z' rest (by decide)
  unfold matchPricingPhrase matchTwoWord
  rw [hper, ha]
  simp

theorem matchWordAltsAux_z (ws : List String) (rest : List Char)
    (h : ∀ w ∈ ws, matchLitCI w.data ('z' :: rest) = none) :
    matchWordAltsAux ws ('z' :: rest) = none := by
  induction ws with
  | nil => rfl
  | cons w ws ih =>
      have hw := h w (by simp)
      simp only [matchWordAltsAux, hw]
      exact ih (fun w' hw' => h w' (by simp [hw']))

theorem matchWordAlts_z (ws : List String) (prev : Option Char)
    (rest : List Char) (h : ∀ w ∈ ws, matchLitCI w.data ('z' :: rest) = none) :
    matchWordAlts ws prev ('z' :: rest) = none := by
  unfold matchWordAlts
  by_cases hp : prevNonWord prev = true
  · rw [if_neg (by simp [hp])]
    exact matchWordAltsAux_z ws rest h
  · rw [if_pos (by simp [hp])]

/-- One failed-match step of the `re.finditer` scan. -/
theorem scanAux_skip_one (m : Option Char → List Char → Option Nat)
    (c : Char) (rest : List Char) (pos minPos : Nat) (prev : Option Char)
    (h0 : m prev (c :: rest) = none) :
    scanAux m (c :: rest) pos minPos prev =
      scanAux m rest (pos + 1) minPos (some c) := by
  simp only [scanAux, h0, ite_self]

/-- Skipping a run of characters on which the matcher always fails:
`re.finditer` passes over the run and continues in the tail. -/
theorem scanAux_skip_run (m : Option Char → List Char → Option Nat)
    (c : Char) (tail : List Char)
    (h : ∀ (k : Nat) (prev : Option Char),
        m prev (List.replicate (k + 1) c ++ tail) = none) :
    ∀ (n pos minPos : Nat) (prev : Option Char),
      scanAux m (List.replicate (n + 1) c ++ tail) pos minPos prev =
        scanAux m tail (pos + (n + 1)) minPos (some c) := by
  intro n
  induction n with
  | zero =>
      intro pos minPos prev
      have h0 := h 0 prev
      simp only [List.replicate_succ, List.replicate_zero, List.nil_append,
        List.cons_append] at h0 ⊢
      rw [scanAux_skip_one m c tail pos minPos prev h0]
  | succ k ih =>
      intro pos minPos prev
      have h0 := h (k + 1) prev
      rw [List.replicate_succ, List.cons_append] at h0 ⊢
      rw [scanAux_skip_one m c _ pos minPos prev h0]
      rw [ih (pos + 1) minPos (some c)]
      congr 1
      omega

theorem dropWhile_cons_of_neg (p : Char → Bool) (x : Char) (xs : List Char)
    (h : p x = false) : List.dropWhile p (x :: xs) = x :: xs := by
  rw [List.dropWhile_cons, if_neg (by simp [h])]

theorem dropWhile_replicate_of_neg (p : Char → Bool) (c : Char) (n : Nat)
    (h : p c = false) :
    List.dropWhile p (List.replicate n c) = List.replicate n c := by
  cases n with
  | zero => rfl
  | succ m => rw [List.replicate_succ]; exact dropWhile_cons_of_neg p c _ h

theorem replicate_append_cons (n : Nat) (c : Char) (t : List Char)
    (hn : n ≠ 0) :
    List.replicate n c ++ t = c :: (List.replicate (n - 1) c ++ t) := by
  cases n with
  | zero => exact absurd rfl hn
  | succ m => rw [List.replicate_succ, List.cons_append]; simp

theorem pyStrip_eq_self_of (l : List Char)
    (h1 : List.dropWhile isPySpace l = l)
    (h2 : List.dropWhile isPySpace l.reverse = l.reverse) :
    pyStrip l = l := by
  unfold pyStrip
  rw [h1, h2, List.reverse_reverse]

theorem pyStrip_replicate_z (n : Nat) :
    pyStrip (List.replicate n 'z') = List.replicate n 'z' := by
  refine pyStrip_eq_self_of _ ?_ ?_
  · exact dropWhile_replicate_of_neg _ _ _ (by decide)
  · rw [List.reverse_replicate]
    exact dropWhile_replicate_of_neg _ _ _ (by decide)

/-- Evaluation of each pattern scan over the counterexample text. -/
theorem reFinditer_cex (m : Option Char → List Char → Option Nat)
    (h : ∀ (k : Nat) (prev : Option Char),
        m prev (List.replicate (k + 1) 'z' ++ cexTail) = none) :
    reFinditer m cexHtml = scanAux m cexTail 9201 0 (some 'z') := by
  unfold reFinditer cexHtml
  rw [show List.replicate 9201 'z' = List.replicate (9200 + 1) 'z' from rfl]
  rw [scanAux_skip_run m 'z' cexTail h 9200 0 0 none]

theorem reFinditer_cex_currency :
    reFinditer matchCurrencyDigit cexHtml = [(9201, 9203)] := by
  rw [reFinditer_cex matchCurrencyDigit]
  · decide
  · intro k prev
    rw [List.replicate_succ, List.cons_append]
    exact matchCurrencyDigit_z prev _

theorem reFinditer_cex_pricing :
    reFinditer matchPricingPhrase cexHtml = [] := by
  rw [reFinditer_cex matchPricingPhrase]
  · decide
  · intro k prev
    rw [List.replicate_succ, List.cons_append]
    exact matchPricingPhrase_z prev _

theorem matchWordAlts_cex (ws : List String)
    (h : ∀ w ∈ ws, ∀ rest : List Char, matchLitCI w.data ('z' :: rest) = none)
    (hres : scanAux (matchWordAlts ws) cexTail 9201 0 (some 'z') = []) :
    reFinditer (matchWordAlts ws) cexHtml = [] := by
  rw [reFinditer_cex (matchWordAlts ws)]
  · exact hres
  · intro k prev
    rw [List.replicate_succ, List.cons_append]
    exact matchWordAlts_z ws prev _ (fun w hw => h w hw _)

theorem reFinditer_cex_monthly :
    reFinditer (matchWordAlts ["monthly"]) cexHtml = [] := by
  refine matchWordAlts_cex _ ?_ (by decide)
  intro w hw rest
  simp only [List.mem_singleton] at hw
  subst hw
  exact matchLitCI_mismatch 'm' "onthly".data 'z' rest (by decide)

theorem reFinditer_cex_annual :
    reFinditer (matchWordAlts ["annually", "year"]) cexHtml = [] := by
  refine matchWordAlts_cex _ ?_ (by decide)
  intro w hw rest
  simp only [List.mem_cons, List.not_mem_nil, or_false] at hw
  rcases hw with h | h <;> subst h
  · exact matchLitCI_mismatch 'a' "nnually".data 'z' rest (by decide)
  · exact matchLitCI_mismatch 'y' "ear".data 'z' rest (by decide)

theorem reFinditer_cex_excess :
    reFinditer (matchWordAlts ["excess", "deductible"]) cexHtml = [] := by
  refine matchWordAlts_cex _ ?_ (by decide)
  intro w hw rest
  simp only [List.mem_cons, List.not_mem_nil, or_false] at hw
  rcases hw with h | h <;> subst h
  · exact matchLitCI_mismatch 'e' "xcess".data 'z' rest (by decide)
  · exact matchLitCI_mismatch 'd' "eductible".data 'z' rest (by decide)

theorem reFinditer_cex_cover :
    reFinditer (matchWordAlts ["cover", "plan", "premium", "options"]) cexHtml
      = [] := by
  refine matchWordAlts_cex _ ?_ (by decide)
  intro w hw rest
  simp only [List.mem_cons, List.not_mem_nil, or_false] at hw
  rcases hw with h | h | h | h <;> subst h
  · exact matchLitCI_mismatch 'c' "over".data 'z' rest (by decide)
  · exact matchLitCI_mismatch 'p' "lan".data 'z' rest (by decide)
  · exact matchLitCI_mismatch 'p' "remium".data 'z' rest (by decide)
  · exact matchLitCI_mismatch 'o' "ptions".data 'z' rest (by decide)

theorem cexHtml_length : cexHtml.length = 9203 := by
  unfold cexHtml
  rw [List.length_append, List.length_replicate]
  rfl

theorem buildWindows_cex : buildWindows cexHtml = [(0, 8000), (8001, 9203)] := by
  unfold buildWindows windowsOfPattern
  rw [reFinditer_cex_currency, reFinditer_cex_pricing, reFinditer_cex_monthly,
    reFinditer_cex_annual, reFinditer_cex_excess, reFinditer_cex_cover,
    cexHtml_length]
  decide

theorem merged_cex :
    mergeWindows (sortWindows (buildWindows cexHtml)) = [(0, 8000), (8001, 9203)] := by
  rw [buildWindows_cex]
  decide
-- appended to main file content for testing
theorem take_cex_1 : List.take 8000 cexHtml = List.replicate 8000 'z' := by
  unfold cexHtml
  rw [List.take_append_of_le_length (by rw [List.length_replicate]; decide)]
  rw [List.take_replicate, show min (8000:Nat) 9201 = 8000 from by decide]

theorem drop_cex : List.drop 8001 cexHtml = List.replicate 1200 'z' ++ cexTail := by
  unfold cexHtml
  rw [List.drop_append_of_le_length (by rw [List.length_replicate]; decide)]
  rw [List.drop_replicate, show (9201 - 8001 : Nat) = 1200 from by decide]

theorem take_cex_2 :
    List.take 1202 (List.replicate 1200 'z' ++ cexTail) =
      List.replicate 1200 'z' ++ cexTail := by
  apply List.take_of_length_le
  rw [List.length_append, List.length_replicate]
  decide

theorem pyStrip_cex_2 :
    pyStrip (List.replicate 1200 'z' ++ cexTail) =
      List.replicate 1200 'z' ++ cexTail := by
  refine pyStrip_eq_self_of _ ?_ ?_
  · rw [replicate_append_cons 1200 'z' cexTail (by decide)]
    exact dropWhile_cons_of_neg _ _ _ (by decide)
  · rw [List.reverse_append, List.reverse_replicate]
    rw [show cexTail.reverse = ['5', '£'] from rfl]
    rw [List.cons_append, List.cons_append, List.nil_append]
    exact dropWhile_cons_of_neg _ _ _ (by decide)

theorem take_cex_3 :
    List.take 100 (List.replicate 1200 'z' ++ cexTail) =
      List.replicate 100 'z' := by
  rw [List.take_append_of_le_length (by rw [List.length_replicate]; decide)]
  rw [List.take_replicate, show min (100:Nat) 1200 = 100 from by decide]

theorem replicate_isEmpty_false (n : Nat) (c : Char) (h : n ≠ 0) :
    (List.replicate n c).isEmpty = false := by
  cases n with
  | zero => exact absurd rfl h
  | succ m => rw [List.replicate_succ]; rfl

theorem buildParts_cex :
    buildParts cexHtml 8100 [(0, 8000), (8001, 9203)] 0 =
      [List.replicate 8000 'z', List.replicate 100 'z'] := by
  have happ : (List.replicate 1200 'z' ++ cexTail).isEmpty = false := by
    rw [replicate_append_cons 1200 'z' cexTail (by decide)]; rfl
  simp only [buildParts, List.drop_zero]
  rw [show (8000 - 0 : Nat) = 8000 from rfl, show (8100 - 0 : Nat) = 8100 from rfl,
      show (9203 - 8001 : Nat) = 1202 from rfl]
  rw [take_cex_1, drop_cex, take_cex_2, pyStrip_replicate_z, pyStrip_cex_2]
  rw [replicate_isEmpty_false 8000 'z' (by decide), happ]
  rw [List.length_replicate, List.length_append, List.length_replicate]
  rw [show cexTail.length = 2 from rfl, show (1200 + 2 : Nat) = 1202 from rfl]
  rw [if_neg (by decide : ¬ (8100 : Nat) ≤ 0)]
  simp only [Bool.false_eq_true, if_false]
  rw [if_neg (by decide : ¬ (8100 : Nat) < 8000)]
  rw [List.length_replicate]
  rw [show (0 + 8000 : Nat) = 8000 from rfl]
  rw [if_neg (by decide : ¬ (8100 : Nat) ≤ 8000)]
  rw [show (8100 - 8000 : Nat) = 100 from rfl]
  rw [if_pos (by decide : (100 : Nat) < 1202)]
  rw [take_cex_3]

theorem cexHtml_isEmpty : cexHtml.isEmpty = false := by
  unfold cexHtml
  rw [replicate_append_cons 9201 'z' cexTail (by decide)]
  rfl

/-- C1 counterexample: the Text Windowing Builder does not count the 17
characters of each `<!-- SNIP -->` separator against the budget, so for
the 9203-character text `cexHtml` (9201 filler characters then `"£5"`) and
budget 8100 the output has 8000 + 17 + 100 = 8117 > 8100 characters. -/
theorem build_extraction_input_budget_counterexample :
    ¬ ((_build_extraction_input cexHtml 8100).length ≤ 8100) := by
  unfold _build_extraction_input
  rw [cexHtml_isEmpty]
  simp only [Bool.false_eq_true, if_false]
  rw [merged_cex, buildParts_cex]
  rw [show joinParts snipSep [List.replicate 8000 'z', List.replicate 100 'z']
      = List.replicate 8000 'z' ++ snipSep ++ List.replicate 100 'z' from rfl]
  rw [List.length_append, List.length_append, List.length_replicate,
    List.length_replicate]
  rw [show snipSep.length = 17 from rfl]
  decide

/-! ## The response-parsing cascade of `extract_product_data`
(`src/agents/llm_utils.py`) -/

/-- JSON whitespace (`json.loads`): space, tab, newline, carriage return. -/
def isJsonWs (c : Char) : Bool :=
  c = ' ' ∨ c = '\t' ∨ c = '\n' ∨ c = '\r'

/-- Skip JSON whitespace. -/
def jsonSkipWs (l : List Char) : List Char := l.dropWhile isJsonWs

/-- Hex digit value. -/
def hexVal (c : Char) : Option Nat :=
  if c.isDigit then some (c.toNat - '0'.toNat)
  else if 'a' ≤ c ∧ c ≤ 'f' then some (c.toNat - 'a'.toNat + 10)
  else if 'A' ≤ c ∧ c ≤ 'F' then some (c.toNat - 'A'.toNat + 10)
  else none

/-- Body of a JSON string after the opening quote: strict mode (raw
control characters below `0x20` are rejected), standard escapes, and
`\uXXXX` (surrogate pairs are not paired; each unit maps to one scalar or
parsing fails for lone surrogates — the claims never exercise them). -/
def jsonParseStr : List Char → Option (List Char × List Char)
  | [] => none
  | '"' :: rest => some ([], rest)
  | '\\' :: 'u' :: h1 :: h2 :: h3 :: h4 :: rest =>
      match hexVal h1, hexVal h2, hexVal h3, hexVal h4 with
      | some a, some b, some c, some d =>
          let code := ((a * 16 + b) * 16 + c) * 16 + d
          if code < 0xd800 ∨ (0xdfff < code ∧ code < 0x110000) then
            (jsonParseStr rest).map (fun p => (Char.ofNat code :: p.1, p.2))
          else none
      | _, _, _, _ => none
  | '\\' :: e :: rest =>
      let c? : Option Char :=
        if e = '"' then some '"'
        else if e = '\\' then some '\\'
        else if e = '/' then some '/'
        else if e = 'b' then some '\x08'
        else if e = 'f' then some '\x0c'
        else if e = 'n' then some '\n'
        else if e = 'r' then some '\r'
        else if e = 't' then some '\t'
        else none
      match c? with
      | some c => (jsonParseStr rest).map (fun p => (c :: p.1, p.2))
      | none => none
  | '\\' :: [] => none
  | c :: rest =>
      if c.toNat < 32 then none
      else (jsonParseStr rest).map (fun p => (c :: p.1, p.2))

/-- JSON number per the `json` module's regex
`-?(0|[1-9]\d*)(\.\d+)?([eE][-+]?\d+)?`, evaluated exactly as a rational. -/
def jsonParseNum (l : List Char) : Option (ℚ × List Char) :=
  let (neg, l1) : Bool × List Char :=
    match l with
    | '-' :: rest => (true, rest)
    | _ => (false, l)
  let intPart : Option (Nat × List Char) :=
    match l1 with
    | '0' :: rest => some (0, rest)
    | c :: rest =>
        if c.isDigit ∧ c ≠ '0' then
          let ds := rest.takeWhile Char.isDigit
          some ((c :: ds).foldl (fun acc d => acc * 10 + (d.toNat - '0'.toNat)) 0,
            rest.dropWhile Char.isDigit)
        else none
    | [] => none
  match intPart with
  | none => none
  | some (ip, l2) =>
      let (fracNum, fracDen, l3) : Nat × Nat × List Char :=
        match l2 with
        | '.' :: rest =>
            let ds := rest.takeWhile Char.isDigit
            if ds.isEmpty then (0, 0, l2)
            else (ds.foldl (fun acc d => acc * 10 + (d.toNat - '0'.toNat)) 0,
              10 ^ ds.length, rest.dropWhile Char.isDigit)
        | _ => (0, 1, l2)
      if fracDen = 0 then none
      else
        let (expOk, expNeg, expVal, l4) : Bool × Bool × Nat × List Char :=
          match l3 with
          | e :: rest =>
              if e = 'e' ∨ e = 'E' then
                let (en, rest2) : Bool × List Char :=
                  match rest with
                  | '-' :: r2 => (true, r2)
                  | '+' :: r2 => (false, r2)
                  | _ => (false, rest)
                let ds := rest2.takeWhile Char.isDigit
                if ds.isEmpty then (false, false, 0, l3)
                else (true, en,
                  ds.foldl (fun acc d => acc * 10 + (d.toNat - '0'.toNat)) 0,
                  rest2.dropWhile Char.isDigit)
              else (true, false, 0, l3)
          | [] => (true, false, 0, l3)
        if ¬ expOk then none
        else
          let base : ℚ := (ip : ℚ) + (fracNum : ℚ) / (fracDen : ℚ)
          let scaled : ℚ :=
            if expNeg then base / ((10 : ℚ) ^ expVal) else base * ((10 : ℚ) ^ expVal)
          some (if neg then -scaled else scaled, l4)

mutual
/-- One JSON value (leading whitespace already consumed); strict
`json.loads` grammar.  The non-finite constants `NaN`/`Infinity` that
CPython additionally accepts are not modelled (no claim exercises them). -/
def jsonParseVal : Nat → List Char → Option (PyVal × List Char)
  | 0, _ => none
  | _ + 1, [] => none
  | fuel + 1, c :: rest =>
      if c = 'n' then
        match rest with
        | 'u' :: 'l' :: 'l' :: r2 => some (pnone, r2)
        | _ => none
      else if c = 't' then
        match rest with
        | 'r' :: 'u' :: 'e' :: r2 => some (pbool true, r2)
        | _ => none
      else if c = 'f' then
        match rest with
        | 'a' :: 'l' :: 's' :: 'e' :: r2 => some (pbool false, r2)
        | _ => none
      else if c = '"' then
        (jsonParseStr rest).map (fun p => (pstr (String.mk p.1), p.2))
      else if c = '[' then
        jsonParseArr fuel (jsonSkipWs rest)
      else if c = '\x7b' then
        jsonParseObj fuel (jsonSkipWs rest)
      else if c = '-' ∨ c.isDigit then
        (jsonParseNum (c :: rest)).map (fun p => (pnum p.1, p.2))
      else none

/-- Elements of a JSON array after `[` (leading whitespace consumed). -/
def jsonParseArr : Nat → List Char → Option (PyVal × List Char)
  | 0, _ => none
  | fuel + 1, l =>
      match l with
      | ']' :: rest => some (plist [], rest)
      | _ =>
          match jsonParseVal fuel l with
          | none => none
          | some (v, rest) => jsonParseArrLoop fuel [v] (jsonSkipWs rest)

/-- Continuation of a JSON array after at least one element. -/
def jsonParseArrLoop : Nat → List PyVal → List Char → Option (PyVal × List Char)
  | 0, _, _ => none
  | fuel + 1, acc, l =>
      match l with
      | ']' :: rest => some (plist acc.reverse, rest)
      | ',' :: rest =>
          match jsonParseVal fuel (jsonSkipWs rest) with
          | none => none
          | some (v, rest2) => jsonParseArrLoop fuel (v :: acc) (jsonSkipWs rest2)
      | _ => none

/-- Members of a JSON object after `{` (leading whitespace consumed);
duplicate keys overwrite in place, as in CPython. -/
def jsonParseObj : Nat → List Char → Option (PyVal × List Char)
  | 0, _ => none
  | fuel + 1, l =>
      match l with
      | '\x7d' :: rest => some (pdict [], rest)
      | _ => jsonParseObjLoop fuel [] l

/-- Key-value members of a JSON object. -/
def jsonParseObjLoop : Nat → PyRec → List Char → Option (PyVal × List Char)
  | 0, _, _ => none
  | fuel + 1, acc, l =>
      match l with
      | '"' :: rest =>
          match jsonParseStr rest with
          | none => none
          | some (k, rest2) =>
              match jsonSkipWs rest2 with
              | ':' :: rest3 =>
                  match jsonParseVal fuel (jsonSkipWs rest3) with
                  | none => none
                  | some (v, rest4) =>
                      let acc := dictSet acc (String.mk k) v
                      match jsonSkipWs rest4 with
                      | ',' :: rest5 => jsonParseObjLoop fuel acc (jsonSkipWs rest5)
                      | '\x7d' :: rest5 => some (pdict acc, rest5)
                      | _ => none
              | _ => none
      | _ => none
end

/-- `json.loads`: parse one value and require only whitespace after it. -/
def jsonLoads (s : String) : Option PyVal :=
  let l := jsonSkipWs s.data
  match jsonParseVal (2 * l.length + 4) l with
  | some (v, rest) => if jsonSkipWs rest = [] then some v else none
  | none => none

/-! ### `ast.literal_eval` model

Python's literal evaluator accepts quoted strings (single or double),
numbers with an optional sign, `True`/`False`/`None`, lists, and dicts.
Tuples and sets evaluate to values that `_try_parse_json` maps to `None`
anyway (they are neither `list` nor `dict`), so the model rejects them:
the composed observable behaviour is unchanged. -/

/-- Body of a Python string literal after its opening quote `q`.
Recognized escapes are translated; an unrecognized escape keeps the
backslash and the character, as CPython does; a literal newline inside a
single-line string literal is a syntax error. -/
def litParseStr (q : Char) : List Char → Option (List Char × List Char)
  | [] => none
  | '\\' :: e :: rest =>
      let mapped : List Char :=
        if e = '\\' then ['\\']
        else if e = '\'' then ['\'']
        else if e = '"' then ['"']
        else if e = 'n' then ['\n']
        else if e = 'r' then ['\r']
        else if e = 't' then ['\t']
        else if e = 'b' then ['\x08']
        else if e = 'f' then ['\x0c']
        else if e = '0' then ['\x00']
        else ['\\', e]
      (litParseStr q rest).map (fun p => (mapped ++ p.1, p.2))
  | '\\' :: [] => none
  | c :: rest =>
      if c = q then some ([], rest)
      else if c = '\n' ∨ c = '\r' then none
      else (litParseStr q rest).map (fun p => (c :: p.1, p.2))

/-- A Python number literal: digits with optional fraction/exponent, as a
rational (model of `int`/`float` literals). -/
def litParseNum (l : List Char) : Option (ℚ × List Char) :=
  match l with
  | c :: _ =>
      if c.isDigit then
        let ds := l.takeWhile Char.isDigit
        let rest := l.dropWhile Char.isDigit
        let ip : Nat := ds.foldl (fun acc d => acc * 10 + (d.toNat - '0'.toNat)) 0
        match rest with
        | '.' :: r2 =>
            let fs := r2.takeWhile Char.isDigit
            let fp : Nat := fs.foldl (fun acc d => acc * 10 + (d.toNat - '0'.toNat)) 0
            some ((ip : ℚ) + (fp : ℚ) / ((10 : ℚ) ^ fs.length), r2.dropWhile Char.isDigit)
        | _ => some ((ip : ℚ), rest)
      else none
  | [] => none

mutual
/-- One Python literal (leading whitespace consumed). -/
def litParseVal : Nat → List Char → Option (PyVal × List Char)
  | 0, _ => none
  | _ + 1, [] => none
  | fuel + 1, c :: rest =>
      if c = 'T' then
        match rest with
        | 'r' :: 'u' :: 'e' :: r2 => some (pbool true, r2)
        | _ => none
      else if c = 'F' then
        match rest with
        | 'a' :: 'l' :: 's' :: 'e' :: r2 => some (pbool false, r2)
        | _ => none
      else if c = 'N' then
        match rest with
        | 'o' :: 'n' :: 'e' :: r2 => some (pnone, r2)
        | _ => none
      else if c = '"' ∨ c = '\'' then
        (litParseStr c rest).map (fun p => (pstr (String.mk p.1), p.2))
      else if c = '[' then
        litParseList fuel (jsonSkipWs rest)
      else if c = '\x7b' then
        litParseDict fuel (jsonSkipWs rest)
      else if c = '-' then
        (litParseNum rest).map (fun p => (pnum (-p.1), p.2))
      else if c = '+' then
        (litParseNum rest).map (fun p => (pnum p.1, p.2))
      else if c.isDigit then
        (litParseNum (c :: rest)).map (fun p => (pnum p.1, p.2))
      else none

/-- Elements of a Python list literal after `[`. -/
def litParseList : Nat → List Char → Option (PyVal × List Char)
  | 0, _ => none
  | fuel + 1, l =>
      match l with
      | ']' :: rest => some (plist [], rest)
      | _ =>
          match litParseVal fuel l with
          | none => none
          | some (v, rest) => litParseListLoop fuel [v] (jsonSkipWs rest)

/-- Continuation of a Python list literal (trailing comma allowed). -/
def litParseListLoop : Nat → List PyVal → List Char → Option (PyVal × List Char)
  | 0, _, _ => none
  | fuel + 1, acc, l =>
      match l with
      | ']' :: rest => some (plist acc.reverse, rest)
      | ',' :: rest =>
          match jsonSkipWs rest with
          | ']' :: rest2 => some (plist acc.reverse, rest2)
          | l2 =>
              match litParseVal fuel l2 with
              | none => none
              | some (v, rest2) => litParseListLoop fuel (v :: acc) (jsonSkipWs rest2)
      | _ => none

/-- Members of a Python dict literal after `{` (string keys only in this
model; the pipeline's literals never use other key shapes). -/
def litParseDict : Nat → List Char → Option (PyVal × List Char)
  | 0, _ => none
  | fuel + 1, l =>
      match l with
      | '\x7d' :: rest => some (pdict [], rest)
      | _ => litParseDictLoop fuel [] l

/-- Key-value members of a Python dict literal (trailing comma allowed). -/
def litParseDictLoop : Nat → PyRec → List Char → Option (PyVal × List Char)
  | 0, _, _ => none
  | fuel + 1, acc, l =>
      match l with
      | q :: rest =>
          if q = '"' ∨ q = '\'' then
            match litParseStr q rest with
            | none => none
            | some (k, rest2) =>
                match jsonSkipWs rest2 with
                | ':' :: rest3 =>
                    match litParseVal fuel (jsonSkipWs rest3) with
                    | none => none
                    | some (v, rest4) =>
                        let acc := dictSet acc (String.mk k) v
                        match jsonSkipWs rest4 with
                        | ',' :: rest5 =>
                            match jsonSkipWs rest5 with
                            | '\x7d' :: rest6 => some (pdict acc, rest6)
                            | l6 => litParseDictLoop fuel acc l6
                        | '\x7d' :: rest5 => some (pdict acc, rest5)
                        | _ => none
                | _ => none
          else none
      | [] => none
end

/-- `ast.literal_eval` on a stripped string. -/
def litEval (s : String) : Option PyVal :=
  let l := jsonSkipWs s.data
  match litParseVal (2 * l.length + 4) l with
  | some (v, rest) => if jsonSkipWs rest = [] then some v else none
  | none => none

/-! ### The `_repair_json` pass -/

/-- One global pass of `re.sub(r",\s*X", "X", s)` for a closing bracket
`X`: each comma followed by optional whitespace and the bracket is
replaced by the bracket alone; the scan resumes after each replacement. -/
def subCommaClose (close : Char) : Nat → List Char → List Char
  | 0, l => l
  | fuel + 1, l =>
      match l with
      | [] => []
      | c :: rest =>
          if c = ',' then
            let k := (rest.takeWhile isPySpace).length
            match rest.drop k with
            | d :: tail2 =>
                if d = close then close :: subCommaClose close fuel tail2
                else c :: subCommaClose close fuel rest
            | [] => c :: subCommaClose close fuel rest
          else c :: subCommaClose close fuel rest

/-- The span of a quoted string for the regex `q(?:[^q\\]|\\.)*q` (with
DOTALL): characters up to the next unescaped closing quote, or `none`
when the quote never closes. -/
def spanScan (q : Char) : List Char → Option (List Char × List Char)
  | [] => none
  | '\\' :: e :: rest =>
      (spanScan q rest).map (fun p => ('\\' :: e :: p.1, p.2))
  | '\\' :: [] => none
  | c :: rest =>
      if c = q then some ([], rest)
      else (spanScan q rest).map (fun p => (c :: p.1, p.2))

/-- Replace literal newlines and carriage returns by spaces (applied to
the matched quoted span). -/
def nlToSpace (l : List Char) : List Char :=
  l.map (fun c => if c = '\n' ∨ c = '\r' then ' ' else c)

/-- One global pass of
`re.sub(r'q(?:[^q\\]|\\.)*q', fix_newlines_in_quotes, s, flags=DOTALL)`:
each complete quoted span has its newlines replaced by spaces; an
unterminated quote is left alone. -/
def fixNlQuotes (q : Char) : Nat → List Char → List Char
  | 0, l => l
  | fuel + 1, l =>
      match l with
      | [] => []
      | c :: rest =>
          if c = q then
            match spanScan q rest with
            | some (content, tail) =>
                q :: nlToSpace content ++ q :: fixNlQuotes q fuel tail
            | none => c :: fixNlQuotes q fuel rest
          else c :: fixNlQuotes q fuel rest

/-- Strip control characters except tab/newline/carriage return. -/
def ctrlStrip (l : List Char) : List Char :=
  l.filter (fun c => 32 ≤ c.toNat ∨ c = '\n' ∨ c = '\r' ∨ c = '\t')

/-- `_repair_json` from `extract_product_data`: strip, remove trailing
commas before `]`/`}`, replace newlines inside double- then single-quoted
spans with spaces, and strip control characters. -/
def _repair_json (s : String) : String :=
  let l := pyStrip s.data
  let l := subCommaClose ']' (l.length + 1) l
  let l := subCommaClose '\x7d' (l.length + 1) l
  let l := fixNlQuotes '"' (l.length + 1) l
  let l := fixNlQuotes '\'' (l.length + 1) l
  String.mk (ctrlStrip l)

/-- Wrap a parsed value the way `_try_parse_json` does: lists pass
through, a dict becomes a one-element list, anything else is `None`
(which also short-circuits the remaining candidates, as the bare
`return None` in the source does). -/
def wrapParsed : Option PyVal → Option (Option (List PyVal))
  | some (plist l) => some (some l)
  | some (pdict d) => some (some [pdict d])
  | some _ => some none
  | none => none

/-- `_try_parse_json` from `extract_product_data`: strip; empty gives
`None`; try `json.loads` on the string and then on its repair (a
successful parse to a non-list/non-dict returns `None` immediately);
finally fall back to `ast.literal_eval`. -/
def _try_parse_json (s : String) : Option (List PyVal) :=
  let s := String.mk (pyStrip s.data)
  if s = "" then none
  else
    match wrapParsed (jsonLoads s) with
    | some r => r
    | none =>
        match wrapParsed (jsonLoads (_repair_json s)) with
        | some r => r
        | none =>
            match litEval s with
            | some (plist l) => some l
            | some (pdict d) => some [pdict d]
            | _ => none

/-! ### `_find_array_bounds` and `_extract_product_objects_from_text` -/

/-- First pass of `_find_array_bounds`: positions of `[` that are not
inside a (single- or double-) quoted string, tracking escapes. -/
def candAux : List Char → Nat → Bool → Char → Bool → List Nat
  | [], _, _, _, _ => []
  | c :: rest, pos, inStr, q, esc =>
      if esc then candAux rest (pos + 1) inStr q false
      else if inStr then
        if c = '\\' then candAux rest (pos + 1) true q true
        else if c = q then candAux rest (pos + 1) false q false
        else candAux rest (pos + 1) true q false
      else if c = '"' ∨ c = '\'' then candAux rest (pos + 1) true c false
      else if c = '[' then pos :: candAux rest (pos + 1) false q false
      else candAux rest (pos + 1) false q false

/-- Second pass of `_find_array_bounds`: string-aware bracket matching
from one candidate `[`; returns the index of the balancing `]`. -/
def bracketScan : List Char → Nat → Nat → Bool → Bool → Bool → Option Nat
  | [], _, _, _, _, _ => none
  | c :: rest, i, depth, inD, inS, esc =>
      if esc then bracketScan rest (i + 1) depth inD inS false
      else if (inD ∨ inS) ∧ c = '\\' then bracketScan rest (i + 1) depth inD inS true
      else if ¬ inD ∧ ¬ inS then
        if c = '[' then bracketScan rest (i + 1) (depth + 1) inD inS false
        else if c = ']' then
          if depth = 1 then some i
          else bracketScan rest (i + 1) (depth - 1) inD inS false
        else if c = '"' then bracketScan rest (i + 1) depth true inS false
        else if c = '\'' then bracketScan rest (i + 1) depth inD true false
        else bracketScan rest (i + 1) depth inD inS false
      else
        if (inD ∧ c = '"') ∨ (inS ∧ c = '\'') then
          bracketScan rest (i + 1) depth false false false
        else bracketScan rest (i + 1) depth inD inS false

/-- Try each candidate `[` in order; the first with a balanced span wins. -/
def boundsFromCands (text : List Char) : List Nat → Option (Nat × Nat)
  | [] => none
  | start :: more =>
      match bracketScan (text.drop (start + 1)) (start + 1) 1 false false false with
      | some e => some (start, e)
      | none => boundsFromCands text more

/-- `_find_array_bounds` from `extract_product_data`; `none` models the
`(-1, -1)` failure result. -/
def _find_array_bounds (s : String) : Option (Nat × Nat) :=
  boundsFromCands s.data (candAux s.data 0 false ' ' false)

/-- `str.find(pat, from)`: first index `≥ from` where `pat` occurs. -/
def findSubAux (pat : List Char) : List Char → Nat → Option Nat
  | [], i => if pat.isEmpty then some i else none
  | l@(_ :: rest), i =>
      if pat.isPrefixOf l then some i else findSubAux pat rest (i + 1)

/-- `text.find(pat, from)` with absolute index result. -/
def findSub (pat text : List Char) (lo : Nat) : Option Nat :=
  findSubAux pat (text.drop lo) lo

/-- Index of the last occurrence of a character in a list. -/
def lastIdxOf (c : Char) : List Char → Option Nat
  | [] => none
  | x :: rest =>
      match lastIdxOf c rest with
      | some j => some (j + 1)
      | none => if x = c then some 0 else none

/-- `text.rfind(c, lo, hi)`: rightmost occurrence in `text[lo:hi]`. -/
def rfindCharIn (text : List Char) (c : Char) (lo hi : Nat) : Option Nat :=
  (lastIdxOf c ((text.drop lo).take (hi - lo))).map (lo + ·)

/-- Forward brace-depth scan of `_extract_product_objects_from_text`
(quote-unaware, as in the source): index of the brace closing the one at
the scan start. -/
def braceScan : List Char → Nat → Nat → Option Nat
  | [], _, _ => none
  | c :: rest, j, depth =>
      if c = '\x7b' then braceScan rest (j + 1) (depth + 1)
      else if c = '\x7d' then
        if depth = 1 then some j else braceScan rest (j + 1) (depth - 1)
      else braceScan rest (j + 1) depth

/-- The trailing-comma and control-character repair applied to each
scavenged object candidate. -/
def objRepair (l : List Char) : List Char :=
  ctrlStrip (subCommaClose '\x7d' (l.length + 1) (subCommaClose ']' (l.length + 1) l))

/-- The scavenging loop of `_extract_product_objects_from_text`: find
each `"product_name"` key, walk back to its enclosing `{`, forward to the
matching `}`, repair and parse the candidate, and keep dicts whose
`product_name` is non-null. -/
def extractObjsAux (text : List Char) (n : Nat) : Nat → Nat → List PyVal
  | 0, _ => []
  | fuel + 1, i =>
      if n ≤ i then []
      else
        match findSub "\"product_name\"".data text i with
        | none => []
        | some idx =>
            match rfindCharIn text '\x7b' i (idx + 1) with
            | none => extractObjsAux text n fuel (idx + 1)
            | some start =>
                match braceScan (text.drop start) start 0 with
                | none => extractObjsAux text n fuel (start + 1)
                | some endIdx =>
                    let candidate := (text.drop start).take (endIdx + 1 - start)
                    let rest := extractObjsAux text n fuel (endIdx + 1)
                    match jsonLoads (String.mk (objRepair candidate)) with
                    | some (pdict d) =>
                        if dictGetD d "product_name" pnone ≠ pnone then
                          pdict d :: rest
                        else rest
                    | _ => rest

/-- `_extract_product_objects_from_text` from `src/agents/llm_utils.py`. -/
def _extract_product_objects_from_text (s : String) : List PyVal :=
  extractObjsAux s.data s.data.length (s.data.length + 2) 0

/-! ### The five-strategy cascade -/

/-- Strategy 1: direct parse of the whole response. -/
def strategy1 (r : String) : Option (List PyVal) := _try_parse_json r

/-- One markdown-marker iteration of Strategy 2: take the text after the
first occurrence of the marker up to the next ` ``` ` fence (or to the
end), strip it, drop a leading `json` token, and parse it directly or
after a repair pass. -/
def tryMarkerBlock (r : List Char) (marker : List Char) : Option (List PyVal) :=
  match findSub marker r 0 with
  | none => none
  | some idx =>
      let after := r.drop (idx + marker.length)
      let block :=
        match findSub "```".data after 0 with
        | some j => after.take j
        | none => after
      let block := pyStrip block
      let block :=
        if "json".data.isPrefixOf block then pyStrip (block.drop 4) else block
      match _try_parse_json (String.mk block) with
      | some l => some l
      | none => _try_parse_json (_repair_json (String.mk block))

/-- Strategy 2: markdown code-fence extraction, trying the marker
` ```json ` before the bare ` ``` `. -/
def strategy2 (r : String) : Option (List PyVal) :=
  match tryMarkerBlock r.data "```json".data with
  | some l => some l
  | none => tryMarkerBlock r.data "```".data

/-- Strategy 3: string-aware bracket matching; when the first parse of
the isolated span is falsy (`if products:`), the repaired span is parsed
and its result — possibly `None` — replaces it. -/
def strategy3 (r : String) : Option (List PyVal) :=
  match _find_array_bounds r with
  | some (s, e) =>
      if s < e then
        let cand := String.mk ((r.data.drop s).take (e + 1 - s))
        match _try_parse_json cand with
        | some (x :: xs) => some (x :: xs)
        | _ => _try_parse_json (_repair_json cand)
      else none
  | none => none

/-- Strategy 4: repair then parse the bracket slice, gated on the
response containing both `[` and `{`. -/
def strategy4 (r : String) : Option (List PyVal) :=
  if '[' ∈ r.data ∧ '\x7b' ∈ r.data then
    match _find_array_bounds r with
    | some (s, e) =>
        if s < e then
          _try_parse_json (_repair_json (String.mk ((r.data.drop s).take (e + 1 - s))))
        else none
    | none => none
  else none

/-- Strategy 5: object scavenging, gated on the response containing the
`"product_name"` key; succeeds only when at least one object is kept. -/
def strategy5 (r : String) : Option (List PyVal) :=
  if (findSub "\"product_name\"".data r.data 0).isSome then
    match _extract_product_objects_from_text r with
    | [] => none
    | x :: xs => some (x :: xs)
  else none

/-- The ordered strategy cascade of `extract_product_data`: the first
strategy that produces a non-`None` result wins (an empty parsed list
does stop the cascade). -/
def strategiesResult (r : String) : Option (List PyVal) :=
  match strategy1 r with
  | some l => some l
  | none =>
      match strategy2 r with
      | some l => some l
      | none =>
          match strategy3 r with
          | some l => some l
          | none =>
              match strategy4 r with
              | some l => some l
              | none => strategy5 r

/-! ### The zero-record content retry -/

/-- `re.search(r"[£$€]\s*\d", html)` as used by the retry gate. -/
def hasPriceIndicator (html : String) : Bool :=
  ¬ (reFinditer matchCurrencyDigit html.data).isEmpty

/-- An alternation of word literals with a leading `\b` and no trailing
boundary (the retry gate's `\b(product|plan|cover|premium|option)`). -/
def matchAltsNoBoundary : List String → List Char → Option Nat
  | [], _ => none
  | w :: ws, t =>
      match matchLitCI w.data t with
      | some rest => some (t.length - rest.length)
      | none => matchAltsNoBoundary ws t

/-- The retry gate's product-word pattern. -/
def matchProductWord (prev : Option Char) (t : List Char) : Option Nat :=
  if ¬ prevNonWord prev then none
  else matchAltsNoBoundary ["product", "plan", "cover", "premium", "option"] t

/-- `re.search(r"\b(product|plan|cover|premium|option)", html, IGNORECASE)`. -/
def hasProductWords (html : String) : Bool :=
  ¬ (reFinditer matchProductWord html.data).isEmpty

/-- Truthiness of an optional record list (`if products:` /
`if not products:`): only a present, non-empty list is truthy. -/
def optTruthy : Option (List PyVal) → Bool
  | some (_ :: _) => true
  | _ => false

/-- The reduced cascade run on the retry response: direct parse, then
bracket-isolation parse, then object scavenging (the markdown-fence and
explicit repair-retry strategies are not repeated here). -/
def retryCascade (resp : String) : List PyVal :=
  let p1 := _try_parse_json resp
  let p2 :=
    if optTruthy p1 then p1
    else
      match _find_array_bounds resp with
      | some (s, e) =>
          if s < e then
            _try_parse_json (String.mk ((resp.data.drop s).take (e + 1 - s)))
          else p1
      | none => p1
  if optTruthy p2 then p2.getD [] else _extract_product_objects_from_text resp

/-- The character budget of the first extraction call. -/
def MAIN_BUDGET : Nat := 120000

/-- The character budget of the zero-record retry call. -/
def RETRY_BUDGET : Nat := 50000

/-- The response-processing phase of `extract_product_data`: run the
cascade; on parse failure return the empty list; on zero records, if the
source HTML carries price or product-word indicators, issue exactly one
retry call on the input rebuilt at `RETRY_BUDGET` and run the reduced
cascade on its (stripped) response — a retry call that raises leaves the
empty list in place.  The second component counts the retry calls
issued. -/
def processResponse (responseText : String) (html : String)
    (retryCall : String → Option String) : List PyVal × Nat :=
  match strategiesResult responseText with
  | none => ([], 0)
  | some products =>
      if products.length = 0 then
        if hasPriceIndicator html ∨ hasProductWords html then
          let htmlRetry := _build_extraction_input html.data RETRY_BUDGET
          match retryCall (String.mk htmlRetry) with
          | some resp => (retryCascade (String.mk (pyStrip resp.data)), 1)
          | none => (products, 1)
        else (products, 0)
      else (products, 0)


/-- C2: the parsing cascade is a total function into record lists (the
embedding has no failure path — "never raises"), and whenever no strategy
in the cascade succeeds, `extract_product_data`'s response processing
returns the empty list; in particular it does so for a response with no
JSON-like content and no `"product_name"` key, whatever the source HTML
and retry behaviour. -/
theorem cascade_failure_returns_empty :
    (∀ (r html : String) (rc : String → Option String),
        strategiesResult r = none → (processResponse r html rc).1 = []) ∧
    (∀ (html : String) (rc : String → Option String),
        (processResponse
          "The page describes boiler cover plans in prose, with no structured data."
          html rc).1 = []) := by
  have h1 : ∀ (r html : String) (rc : String → Option String),
      strategiesResult r = none → (processResponse r html rc).1 = [] := by
    intro r html rc h
    simp [processResponse, h]
  refine ⟨h1, fun html rc => h1 _ html rc (by decide)⟩

/-- Witness for C2 at a concrete prose response and a retry oracle that
would answer if it were ever called. -/
theorem cascade_failure_returns_empty_witness :
    (processResponse
      "The page describes boiler cover plans in prose, with no structured data."
      "Plans from £9.99" (fun _ => some "[]")).1 = [] :=
  cascade_failure_returns_empty.1
    "The page describes boiler cover plans in prose, with no structured data."
    "Plans from £9.99" (fun _ => some "[]") (by decide)

/-- C7 counterexample: the zero-record retry does not repeat the full
parsing cascade.  On the retry response `` ```json {"category": "Boiler"} ``` ``
the full cascade recovers the object through markdown-fence extraction,
but the retry path (direct parse, bracket isolation, object scavenging
only) returns no records. -/
theorem retry_cascade_not_full_counterexample :
    strategiesResult "```json\n\x7b\"category\": \"Boiler\"\x7d\n```" =
        some [pdict [("category", pstr "Boiler")]] ∧
    retryCascade "```json\n\x7b\"category\": \"Boiler\"\x7d\n```" = [] := by
  constructor <;> decide

/-- C7 (amended): the zero-record content retry is issued at most once;
it fires only when the cascade parsed an empty record list and the source
HTML contains currency-symbol-digit patterns or product/plan/cover/option
keywords; it rebuilds the windowed input at the smaller budget
`RETRY_BUDGET = 50000 < 120000 = MAIN_BUDGET` (the oracle in the last
conjunct answers only that exact rebuilt input); and it repeats the
reduced parsing cascade — direct parse, bracket isolation, object
scavenging — once on the stripped new response. -/
theorem zero_record_retry_amended :
    (∀ (r html : String) (rc : String → Option String),
        (processResponse r html rc).2 ≤ 1) ∧
    (∀ (r html : String) (rc : String → Option String),
        (processResponse r html rc).2 = 1 →
          strategiesResult r = some [] ∧
          (hasPriceIndicator html ∨ hasProductWords html)) ∧
    RETRY_BUDGET < MAIN_BUDGET ∧
    (∀ (r html resp : String),
        strategiesResult r = some [] →
        (hasPriceIndicator html ∨ hasProductWords html) →
        processResponse r html
            (fun input =>
              if input = String.mk (_build_extraction_input html.data RETRY_BUDGET)
              then some resp else none) =
          (retryCascade (String.mk (pyStrip resp.data)), 1)) := by
  refine ⟨?_, ?_, by decide, ?_⟩
  · intro r html rc
    unfold processResponse
    rcases h : strategiesResult r with _ | products
    · simp
    · by_cases hlen : products.length = 0
      · simp only [hlen, if_pos rfl]
        by_cases hind : (hasPriceIndicator html ∨ hasProductWords html : Prop)
        · rw [if_pos hind]
          rcases rc (String.mk (_build_extraction_input html.data RETRY_BUDGET)) with
            _ | resp <;> simp
        · rw [if_neg hind]
          simp
      · simp [hlen]
  · intro r html rc h
    unfold processResponse at h
    rcases hs : strategiesResult r with _ | products
    · rw [hs] at h; simp at h
    · rw [hs] at h
      by_cases hlen : products.length = 0
      · have hpe : products = [] := List.length_eq_zero.mp hlen
        subst hpe
        refine ⟨rfl, ?_⟩
        by_cases hind : (hasPriceIndicator html ∨ hasProductWords html : Prop)
        · exact hind
        · simp only [if_pos rfl, if_neg hind] at h
          simp at h
      · simp [hlen] at h
  · intro r html resp hs hind
    unfold processResponse
    rw [hs]
    simp only [List.length_nil, if_pos rfl, if_pos hind, if_pos rfl]
    simp

/-- Witness for the amended C7 theorem: with an empty parsed array over
price-bearing HTML, the retry fires exactly once with the rebuilt input
and the reduced cascade parses the new response. -/
theorem zero_record_retry_amended_witness :
    processResponse "[]" "Plans from £9.99"
        (fun input =>
          if input = String.mk
              (_build_extraction_input "Plans from £9.99".data RETRY_BUDGET)
          then some "[\x7b\"product_name\": \"Y\"\x7d]" else none) =
      (retryCascade (String.mk
        (pyStrip "[\x7b\"product_name\": \"Y\"\x7d]".data)), 1) :=
  zero_record_retry_amended.2.2.2 "[]" "Plans from £9.99"
    "[\x7b\"product_name\": \"Y\"\x7d]" (by decide) (by decide)

/-! ## The model-call retry loop of `extract_product_data` (claim C6) -/

/-- Outcome of one `client.messages.create` attempt: a successful
response text, or an `anthropic.APIError` classified by the source's
rate-limit test (status 429 / message pattern). -/
inductive CallOutcome : Type where
  | success : String → CallOutcome
  | apiError : Bool → CallOutcome
  deriving DecidableEq, Repr

/-- The fixed backoff schedule `(8, 25, 60)` indexed by
`min(attempt, 2)`. -/
def backoffWait (attempt : Nat) : Nat := [8, 25, 60].getD (min attempt 2) 0

/-- The `for attempt in range(max_retries)` loop: success breaks out with
the response; a rate-limited error with attempts remaining sleeps the
schedule duration and re-attempts; a final-attempt or non-rate-limit
error returns the empty result.  The second component is the list of
sleeps performed, in order.  (`fuel` is `maxRetries - attempt`; a loop
that never runs leaves the response unbound, which the source's outer
`except Exception` turns into an empty result as well.) -/
def retryLoopAux (outcomes : Nat → CallOutcome) (maxRetries : Nat) :
    Nat → Nat → Option String × List Nat
  | _, 0 => (none, [])
  | attempt, fuel + 1 =>
      match outcomes attempt with
      | .success r => (some r, [])
      | .apiError rl =>
          if rl ∧ attempt < maxRetries - 1 then
            let res := retryLoopAux outcomes maxRetries (attempt + 1) fuel
            (res.1, backoffWait attempt :: res.2)
          else (none, [])

/-- The whole retry loop from attempt 0. -/
def retryLoop (outcomes : Nat → CallOutcome) (maxRetries : Nat) :
    Option String × List Nat :=
  retryLoopAux outcomes maxRetries 0 maxRetries

/-- `extract_product_data` as a function of the attempt outcomes, the
source HTML and the retry-call oracle: a failed loop yields no records;
a successful response goes through the parsing cascade and the
zero-record retry stage.  The second component is the backoff sleeps. -/
def extract_product_data (outcomes : Nat → CallOutcome) (maxRetries : Nat)
    (html : String) (retryCall : String → Option String) :
    List PyVal × List Nat :=
  match retryLoop outcomes maxRetries with
  | (none, ws) => ([], ws)
  | (some r, ws) => ((processResponse r html retryCall).1, ws)

theorem retryLoopAux_all_rate_limited (outcomes : Nat → CallOutcome)
    (maxRetries : Nat) :
    ∀ (fuel attempt : Nat), attempt + fuel = maxRetries →
      (∀ j, attempt ≤ j → j < maxRetries - 1 → outcomes j = .apiError true) →
      (retryLoopAux outcomes maxRetries attempt fuel).2 =
        (List.range' attempt (maxRetries - 1 - attempt)).map backoffWait := by
  intro fuel
  induction fuel with
  | zero =>
      intro attempt hsum _
      have : maxRetries - 1 - attempt = 0 := by omega
      simp [retryLoopAux, this]
  | succ f ih =>
      intro attempt hsum hrl
      by_cases hlast : attempt < maxRetries - 1
      · have ho := hrl attempt (le_refl _) hlast
        rw [show retryLoopAux outcomes maxRetries attempt (f + 1) =
            ((retryLoopAux outcomes maxRetries (attempt + 1) f).1,
              backoffWait attempt ::
                (retryLoopAux outcomes maxRetries (attempt + 1) f).2) from by
          simp [retryLoopAux, ho, hlast]]
        rw [show maxRetries - 1 - attempt = (maxRetries - 1 - (attempt + 1)) + 1
          from by omega]
        rw [List.range'_succ]
        simp only [List.map_cons]
        rw [ih (attempt + 1) (by omega)
          (fun j hj1 hj2 => hrl j (by omega) hj2)]
      · rcases ho : outcomes attempt with r | b
        · simp [retryLoopAux, ho]
          have : maxRetries - 1 - attempt = 0 := by omega
          simp [this]
        · simp only [retryLoopAux, ho]
          rw [if_neg (by omega)]
          have : maxRetries - 1 - attempt = 0 := by omega
          simp [this]

theorem retryLoopAux_stops_on_error (outcomes : Nat → CallOutcome)
    (maxRetries : Nat) :
    ∀ (fuel attempt i : Nat), attempt ≤ i → i < attempt + fuel →
      (∀ j, attempt ≤ j → j < i → outcomes j = .apiError true) →
      outcomes i = .apiError false →
      (retryLoopAux outcomes maxRetries attempt fuel).1 = none := by
  intro fuel
  induction fuel with
  | zero => intro attempt i h1 h2; omega
  | succ f ih =>
      intro attempt i h1 h2 hpre herr
      by_cases hi : i = attempt
      · subst hi
        simp [retryLoopAux, herr]
      · have ha := hpre attempt (le_refl _) (by omega)
        simp only [retryLoopAux, ha]
        by_cases hrem : attempt < maxRetries - 1
        · rw [if_pos ⟨trivial, hrem⟩]
          exact ih (attempt + 1) i (by omega) (by omega)
            (fun j hj1 hj2 => hpre j (by omega) hj2) herr
        · rw [if_neg (by simp [hrem])]
  
theorem retryLoopAux_exhausted (outcomes : Nat → CallOutcome)
    (maxRetries : Nat) :
    ∀ (fuel attempt : Nat), attempt + fuel = maxRetries →
      (∀ j, j < maxRetries → outcomes j = .apiError true) →
      (retryLoopAux outcomes maxRetries attempt fuel).1 = none := by
  intro fuel
  induction fuel with
  | zero => intro attempt _ _; rfl
  | succ f ih =>
      intro attempt hsum hall
      have ha := hall attempt (by omega)
      simp only [retryLoopAux, ha]
      by_cases hrem : attempt < maxRetries - 1
      · rw [if_pos ⟨trivial, hrem⟩]
        exact ih (attempt + 1) (by omega) hall
      · rw [if_neg (by simp [hrem])]

theorem extract_product_data_sleeps (outcomes : Nat → CallOutcome)
    (maxRetries : Nat) (html : String) (rc : String → Option String) :
    (extract_product_data outcomes maxRetries html rc).2 =
      (retryLoop outcomes maxRetries).2 := by
  unfold extract_product_data
  rcases h : retryLoop outcomes maxRetries with ⟨_ | r, ws⟩ <;> simp

/-- C6: in the model-call retry loop of `extract_product_data`, when
every attempt before the last is rate-limited, the sleeps performed are
exactly the attempt-indexed durations of the fixed schedule
`backoffWait i = (8, 25, 60)[min(i, 2)]`, whatever the final attempt
does; a non-rate-limit API error at any reached attempt, or exhausting
all attempts on rate limits, yields the empty record list without
raising; and in the two-rate-limits-then-success scenario at the
configured maximum of 3 attempts, the returned records come from the
third response and the sleeps are `[8, 25]`, totalling 33 seconds. -/
theorem extract_retry_backoff :
    (∀ (o : Nat → CallOutcome) (m : Nat) (html : String)
        (rc : String → Option String),
        (∀ j, j < m - 1 → o j = .apiError true) →
        (extract_product_data o m html rc).2 =
          (List.range' 0 (m - 1)).map backoffWait) ∧
    (∀ (o : Nat → CallOutcome) (m : Nat) (html : String)
        (rc : String → Option String) (i : Nat),
        i < m → (∀ j, j < i → o j = .apiError true) →
        o i = .apiError false →
        (extract_product_data o m html rc).1 = []) ∧
    (∀ (o : Nat → CallOutcome) (m : Nat) (html : String)
        (rc : String → Option String),
        (∀ j, j < m → o j = .apiError true) →
        (extract_product_data o m html rc).1 = []) ∧
    (∀ (r html : String) (rc : String → Option String),
        extract_product_data (fun i => if i < 2 then .apiError true else .success r)
            3 html rc =
          ((processResponse r html rc).1, [8, 25]) ∧ 8 + 25 = 33) := by
  refine ⟨?_, ?_, ?_, ?_⟩
  · intro o m html rc h
    rw [extract_product_data_sleeps]
    unfold retryLoop
    exact retryLoopAux_all_rate_limited o m m 0 (by omega)
      (fun j _ hj2 => h j hj2)
  · intro o m html rc i hi hpre herr
    unfold extract_product_data
    have hnone : (retryLoop o m).1 = none :=
      retryLoopAux_stops_on_error o m m 0 i (by omega) (by omega)
        (fun j _ hj2 => hpre j hj2) herr
    rcases h : retryLoop o m with ⟨_ | r, ws⟩
    · simp
    · rw [h] at hnone; simp at hnone
  · intro o m html rc hall
    unfold extract_product_data
    have hnone : (retryLoop o m).1 = none :=
      retryLoopAux_exhausted o m m 0 (by omega) hall
    rcases h : retryLoop o m with ⟨_ | r, ws⟩
    · simp
    · rw [h] at hnone; simp at hnone
  · intro r html rc
    refine ⟨?_, rfl⟩
    rfl

/-- Witness for C6: a concrete run in which the call rate-limits twice
and then succeeds on the third attempt at the configured maximum of 3:
the sleeps follow the schedule, and the records come from the third
response. -/
theorem extract_retry_backoff_witness :
    (extract_product_data
        (fun i => if i < 2 then CallOutcome.apiError true
          else .success "[\x7b\"product_name\": \"Z\"\x7d]")
        3 "irrelevant" (fun _ => none)).2 =
      (List.range' 0 (3 - 1)).map backoffWait ∧
    extract_product_data
        (fun i => if i < 2 then CallOutcome.apiError true
          else .success "[\x7b\"product_name\": \"Z\"\x7d]")
        3 "irrelevant" (fun _ => none) =
      ((processResponse "[\x7b\"product_name\": \"Z\"\x7d]" "irrelevant"
        (fun _ => none)).1, [8, 25]) :=
  ⟨extract_retry_backoff.1
      (fun i => if i < 2 then CallOutcome.apiError true
        else .success "[\x7b\"product_name\": \"Z\"\x7d]")
      3 "irrelevant" (fun _ => none)
      (fun j hj => by interval_cases j <;> rfl),
    (extract_retry_backoff.2.2.2 "[\x7b\"product_name\": \"Z\"\x7d]"
      "irrelevant" (fun _ => none)).1⟩

/-! ## `validate_extracted_data` from `src/agents/llm_utils.py` (claim C3) -/

/-- `validate_extracted_data`: non-dict entries are dropped; each kept
record is rebuilt with all eight keys present — `product_name` and
`category` take their defaults only when the key is absent (`dict.get`
returns an explicit `null` unchanged), and `features` is forced to a list. -/
def validate_extracted_data (products : List PyVal) : List PyRec :=
  products.filterMap (fun p =>
    match p with
    | pdict d => some
        [ ("product_name", dictGetD d "product_name" (pstr "Unknown"))
        , ("price_monthly", dictGetD d "price_monthly" pnone)
        , ("price_annual", dictGetD d "price_annual" pnone)
        , ("excess", dictGetD d "excess" pnone)
        , ("features",
            match dictGet d "features" with
            | some (plist l) => plist l
            | _ => plist [])
        , ("special_offers", dictGetD d "special_offers" pnone)
        , ("terms_conditions", dictGetD d "terms_conditions" pnone)
        , ("category", dictGetD d "category" (pstr "General")) ]
    | _ => none)

/-- C3: every record output by `validate_extracted_data` has its
`product_name` and `category` keys present (the spec's "non-absent"; the
value may still be an explicit null passed through by `dict.get`), and
its `features` value is always a list, never absent or null. -/
theorem validate_extracted_data_invariant (products : List PyVal) :
    ∀ r ∈ validate_extracted_data products,
      (dictGet r "product_name").isSome ∧
      (dictGet r "category").isSome ∧
      (∃ l, dictGet r "features" = some (plist l)) := by
  intro r hr
  obtain ⟨p, _, hp⟩ := List.mem_filterMap.mp hr
  match p with
  | pnone | pbool _ | pnum _ | pstr _ | plist _ => simp at hp
  | pdict d =>
      simp only [Option.some.injEq] at hp
      subst hp
      refine ⟨by simp [dictGet, List.find?], by simp [dictGet, List.find?], ?_⟩
      rcases hf : dictGet d "features" with _ | v
      · exact ⟨[], by simp [dictGet, List.find?, hf]⟩
      · match v with
        | plist l => exact ⟨l, by simp [dictGet, List.find?, hf]⟩
        | pnone | pbool _ | pnum _ | pstr _ | pdict _ =>
            exact ⟨[], by simp [dictGet, List.find?, hf]⟩

/-- Witness for C3 at a record whose `product_name` is an explicit null
and whose `features` is a non-list. -/
theorem validate_extracted_data_invariant_witness :
    (dictGet
        [ ("product_name", pnone), ("price_monthly", pnone)
        , ("price_annual", pnone), ("excess", pnone)
        , ("features", plist []), ("special_offers", pnone)
        , ("terms_conditions", pnone), ("category", pstr "General") ]
        "product_name").isSome ∧
    (dictGet
        [ ("product_name", pnone), ("price_monthly", pnone)
        , ("price_annual", pnone), ("excess", pnone)
        , ("features", plist []), ("special_offers", pnone)
        , ("terms_conditions", pnone), ("category", pstr "General") ]
        "category").isSome ∧
    (∃ l, dictGet
        [ ("product_name", pnone), ("price_monthly", pnone)
        , ("price_annual", pnone), ("excess", pnone)
        , ("features", plist []), ("special_offers", pnone)
        , ("terms_conditions", pnone), ("category", pstr "General") ]
        "features" = some (plist l)) :=
  validate_extracted_data_invariant
    [pdict [("product_name", pnone), ("features", pstr "not-a-list")]]
    _ (by decide)

/-! ## `_calculate_price_range` from
`src/agents/competitor_intelligence.py` (claim C9) -/

/-- `re.search(r'[\d.]+', s)`: the leftmost maximal run of digits and
dots. -/
def findNumDotRun : List Char → Option (List Char)
  | [] => none
  | c :: rest =>
      if c.isDigit ∨ c = '.' then
        some ((c :: rest).takeWhile (fun x => x.isDigit ∨ x = '.'))
      else findNumDotRun rest

/-- Decimal value of a digit run. -/
def digitsVal (l : List Char) : Nat :=
  l.foldl (fun a c => a * 10 + (c.toNat - '0'.toNat)) 0

/-- `float(s)` on a digit-and-dot run: defined only when the run has at
most one dot and at least one digit (`float(".")` or `float("1.2.3")`
raise `ValueError` in CPython).  Values are exact rationals. -/
def pyFloatOfRun (l : List Char) : Option ℚ :=
  let ip := l.takeWhile Char.isDigit
  match l.dropWhile Char.isDigit with
  | [] => if ip.isEmpty then none else some (digitsVal ip : ℚ)
  | '.' :: frac =>
      if frac.all Char.isDigit ∧ ¬ (ip.isEmpty ∧ frac.isEmpty) then
        some ((digitsVal ip : ℚ) + (digitsVal frac : ℚ) / (10 : ℚ) ^ frac.length)
      else none
  | _ => none

/-- One price field of one product inside `_calculate_price_range`: a
falsy field is skipped; a field with no `[\d.]+` match is skipped; a
match that `float` cannot parse raises `ValueError`. -/
def priceOf (p : PyRec) (key : String) : Except String (Option ℚ) :=
  let v := dictGetD p key pnone
  if pyTruthy v then
    match findNumDotRun (pyStr v).data with
    | some run =>
        match pyFloatOfRun run with
        | some q => .ok (some q)
        | none =>
            .error ("ValueError: could not convert string to float: '"
              ++ String.mk run ++ "'")
    | none => .ok none
  else .ok none

/-- The collection loop of `_calculate_price_range`: per product, the
monthly then the annual field, propagating the first `ValueError`. -/
def collectPrices : List PyRec → Except String (List ℚ × List ℚ)
  | [] => .ok ([], [])
  | p :: rest => do
      let m ← priceOf p "price_monthly"
      let a ← priceOf p "price_annual"
      let (ms, anns) ← collectPrices rest
      pure (match m with | some q => q :: ms | none => ms,
        match a with | some q => q :: anns | none => anns)

/-- Min/max/average summary over the successfully parsed prices. -/
structure PriceStats where
  min : Option ℚ
  max : Option ℚ
  avg : Option ℚ
  deriving DecidableEq, Repr

/-- Aggregates of one price list; all `none` when no price parsed. -/
def statsOf : List ℚ → PriceStats
  | [] => ⟨none, none, none⟩
  | x :: xs =>
      ⟨some (xs.foldl Min.min x), some (xs.foldl Max.max x),
        some ((x :: xs).sum / ((x :: xs).length : ℚ))⟩

/-- The price-range result dictionary. -/
structure PriceRange where
  monthly : PriceStats
  annual : PriceStats
  deriving DecidableEq, Repr

/-- `_calculate_price_range` from
`src/agents/competitor_intelligence.py`; the `Except` result surfaces the
`ValueError` that `float()` raises on an unparsable `[\d.]+` match. -/
def _calculate_price_range (products : List PyRec) :
    Except String PriceRange :=
  (collectPrices products).map (fun p => ⟨statsOf p.1, statsOf p.2⟩)

/-- C9 (code bug): on a record whose `price_monthly` is `"£."`, the
regex `[\d.]+` matches `"."` and `float(".")` raises `ValueError`, which
escapes `_calculate_price_range` — the computation does not return
normally with the unparsable price skipped, as the spec requires. -/
theorem calculate_price_range_raises_on_dot :
    _calculate_price_range
        [[("product_name", pstr "Boiler Plan"), ("price_monthly", pstr "£.")]] =
      Except.error "ValueError: could not convert string to float: '.'" := by
  rfl

/-! ## `src/agents/scraper_agent.py`: fetch client and coordinator
(claims C8 and C10) -/

/-- An HTTP response at the fetch boundary. -/
structure HttpResponse where
  status : Nat
  body : String
  deriving DecidableEq, Repr

/-- `fetch_url_content` from `src/agents/scraper_agent.py`, as a function
of the received response: `raise_for_status` raises for status ≥ 400,
which the handlers turn into a recorded per-URL error (with a dedicated
message for 403); a successful response's text is returned unchanged —
there is no framework-shell special case in this fetch client. -/
def fetch_url_content (resp : HttpResponse) (url : String) :
    Option String × List (String × String) :=
  if resp.status < 400 then (some resp.body, [])
  else if resp.status = 403 then
    (none, [(url, "403 Forbidden for " ++ url
      ++ ". The site may block requests from cloud/data-center IPs "
      ++ "(e.g. Streamlit Cloud). Try running locally or use a URL that "
      ++ "allows server access.")])
  else (none, [(url, "Failed to fetch " ++ url ++ ": HTTPError")])

/-- A framework-shell page body with an embedded JSON payload, used to
refute the claimed special case. -/
def shellBody : String :=
  "<html><body><script id=\"__NEXT_DATA__\" type=\"application/json\">"
    ++ "\x7b\"price\": \"£12\"\x7d</script></body></html>"

/-- C10 counterexample: a fetched page body carrying a framework-shell
marker and an embedded JSON payload is returned verbatim as the page
text; it is not replaced by the re-serialized payload
`{"price": "£12"}` (nor by any other value — the function returns the
raw body for every successful response). -/
theorem fetch_no_shell_unwrap_counterexample :
    (fetch_url_content ⟨200, shellBody⟩ "https://provider.example/plans").1 =
        some shellBody ∧
    shellBody ≠ "\x7b\"price\": \"£12\"\x7d" := by
  exact ⟨rfl, by decide⟩

/-- C10 (amended): the Fetch Client returns the raw response body
unchanged for every successful (status < 400) fetch, and records exactly
one per-URL error entry, returning no text, for every HTTP error status;
no framework-shell special case exists in this implementation. -/
theorem fetch_url_content_raw_body (resp : HttpResponse) (url : String) :
    (resp.status < 400 →
      fetch_url_content resp url = (some resp.body, [])) ∧
    (400 ≤ resp.status →
      (fetch_url_content resp url).1 = none ∧
      (fetch_url_content resp url).2.length = 1) := by
  constructor
  · intro h
    simp [fetch_url_content, h]
  · intro h
    have hn : ¬ resp.status < 400 := by omega
    by_cases h403 : resp.status = 403
    · simp [fetch_url_content, hn, h403]
    · simp [fetch_url_content, hn, h403]

/-- Witness for the amended C10 theorem at a 200 and a 403 response. -/
theorem fetch_url_content_raw_body_witness :
    fetch_url_content ⟨200, "<html>£9</html>"⟩ "https://a.example/p" =
        (some "<html>£9</html>", []) ∧
    (fetch_url_content ⟨403, ""⟩ "https://a.example/p").1 = none :=
  ⟨(fetch_url_content_raw_body ⟨200, "<html>£9</html>"⟩
      "https://a.example/p").1 (by decide),
    ((fetch_url_content_raw_body ⟨403, ""⟩ "https://a.example/p").2
      (by decide)).1⟩

/-- Tagging of validated records with provenance in `scrape_single_url`:
`source_url` always, `competitor` only for a truthy label. -/
def validateAndTag (products : List PyVal) (url : String)
    (comp : Option String) : List PyRec :=
  (validate_extracted_data products).map (fun r =>
    let r := dictSet r "source_url" (pstr url)
    match comp with
    | some c => if c = "" then r else dictSet r "competitor" (pstr c)
    | none => r)

/-- `scrape_single_url` as a function of the per-URL fetch result and the
extractor: a falsy fetch result or an empty extraction yields an error
message and no result; otherwise the validated, provenance-tagged records
are returned with no error.  Exactly one of the two components is present. -/
def scrape_single_url (fetch : String → Option String)
    (ex : String → String → List PyVal) (url : String)
    (comp : Option String) : Option (List PyRec) × Option String :=
  match fetch url with
  | none => (none, some ("Could not fetch content from " ++ url))
  | some html =>
      if html = "" then (none, some ("Could not fetch content from " ++ url))
      else
        let products := ex html url
        if products.isEmpty then
          (none, some ("No products extracted from " ++ url))
        else (some (validateAndTag products url comp), none)

/-- Replace-or-append on the per-URL result dict
(`all_results[url] = products`). -/
def resSet (rs : List (String × List PyRec)) (k : String) (v : List PyRec) :
    List (String × List PyRec) :=
  match rs with
  | [] => [(k, v)]
  | (k', v') :: rest =>
      if k' = k then (k', v) :: rest else (k', v') :: resSet rest k v

/-- The accumulation loop of `scrape_multiple_urls`: results go into the
URL-keyed dict, failures append `{url, error}` entries, and no per-URL
failure stops the loop. -/
def scrapeLoop (fetch : String → Option String)
    (ex : String → String → List PyVal) (urlToComp : String → Option String) :
    List String → List (String × List PyRec) → List (String × String) →
      List (String × List PyRec) × List (String × String)
  | [], results, errors => (results, errors)
  | url :: rest, results, errors =>
      let (result, error) := scrape_single_url fetch ex url (urlToComp url)
      let results :=
        match result with
        | some prods => resSet results url prods
        | none => results
      let errors :=
        match error with
        | some e => errors ++ [(url, e)]
        | none => errors
      scrapeLoop fetch ex urlToComp rest results errors

/-- `scrape_multiple_urls` from `src/agents/scraper_agent.py` (the
progress callback and the inter-request sleep do not affect the returned
data). -/
def scrape_multiple_urls (fetch : String → Option String)
    (ex : String → String → List PyVal) (urls : List String)
    (urlToComp : String → Option String) :
    List (String × List PyRec) × List (String × String) :=
  scrapeLoop fetch ex urlToComp urls [] []

/-- Whether a URL passes both the fetch and the extraction stage. -/
def urlSucceeds (fetch : String → Option String)
    (ex : String → String → List PyVal) (url : String) : Bool :=
  match fetch url with
  | none => false
  | some html => ¬ html = "" ∧ ¬ (ex html url).isEmpty

theorem resSet_not_mem (rs : List (String × List PyRec)) (k : String)
    (v : List PyRec) (h : k ∉ rs.map Prod.fst) :
    resSet rs k v = rs ++ [(k, v)] := by
  induction rs with
  | nil => rfl
  | cons hd tl ih =>
      obtain ⟨k', v'⟩ := hd
      simp only [List.map_cons, List.mem_cons] at h
      push_neg at h
      simp only [resSet]
      rw [if_neg (fun hh => h.1 hh.symm), ih h.2]
      simp

theorem filter_partition_length (p : String → Bool) (l : List String) :
    (l.filter p).length + (l.filter (fun x => ! p x)).length = l.length := by
  induction l with
  | nil => rfl
  | cons x xs ih =>
      by_cases hx : p x = true
      · simp [List.filter_cons, hx, ih]
        omega
      · simp only [List.filter_cons, hx, Bool.not_eq_true] at *
        simp [hx, ih]
        omega

theorem scrape_single_url_cases (f : String → Option String)
    (ex : String → String → List PyVal) (url : String) (comp : Option String) :
    (urlSucceeds f ex url = true →
      (scrape_single_url f ex url comp).1 =
          some (validateAndTag (ex ((f url).getD "") url) url comp) ∧
      (scrape_single_url f ex url comp).2 = none) ∧
    (urlSucceeds f ex url = false →
      (scrape_single_url f ex url comp).1 = none ∧
      (scrape_single_url f ex url comp).2.isSome) := by
  unfold urlSucceeds scrape_single_url
  rcases f url with _ | html
  · simp
  · by_cases he : html = ""
    · simp [he]
    · by_cases hp : (ex html url).isEmpty
      · simp [he, hp]
      · simp [he, hp]

theorem scrapeLoop_counts (f : String → Option String)
    (ex : String → String → List PyVal) (comp : String → Option String) :
    ∀ (urls : List String) (results : List (String × List PyRec))
      (errors : List (String × String)),
      urls.Nodup → (∀ u ∈ urls, u ∉ results.map Prod.fst) →
      (scrapeLoop f ex comp urls results errors).1.length =
          results.length + (urls.filter (urlSucceeds f ex)).length ∧
      (scrapeLoop f ex comp urls results errors).2.length =
          errors.length + (urls.filter (fun u => ! urlSucceeds f ex u)).length := by
  intro urls
  induction urls with
  | nil => intro results errors _ _; simp [scrapeLoop]
  | cons url rest ih =>
      intro results errors hnd hkeys
      have hnd' : rest.Nodup := (List.nodup_cons.mp hnd).2
      have hurl : url ∉ rest := (List.nodup_cons.mp hnd).1
      by_cases hs : urlSucceeds f ex url = true
      · have hc := (scrape_single_url_cases f ex url (comp url)).1 hs
        simp only [scrapeLoop, hc.1, hc.2]
        rw [resSet_not_mem results url _ (hkeys url (by simp))]
        have hkeys' : ∀ u ∈ rest,
            u ∉ (results ++ [(url, validateAndTag (ex ((f url).getD "") url)
              url (comp url))]).map Prod.fst := by
          intro u hu
          simp only [List.map_append, List.mem_append, List.map_cons,
            List.map_nil, List.mem_singleton]
          push_neg
          exact ⟨hkeys u (by simp [hu]), by
            intro hequ
            exact hurl (hequ ▸ hu)⟩
        have := ih (results ++ [(url, validateAndTag (ex ((f url).getD "") url)
          url (comp url))]) errors hnd' hkeys'
        rw [this.1, this.2]
        simp [List.filter_cons, hs]
        omega
      · have hsf : urlSucceeds f ex url = false := by
          rcases hb : urlSucceeds f ex url with _ | _
          · rfl
          · exact absurd hb hs
        have hc := (scrape_single_url_cases f ex url (comp url)).2 hsf
        rcases he : (scrape_single_url f ex url (comp url)).2 with _ | e
        · rw [he] at hc; simp at hc
        · simp only [scrapeLoop, hc.1, he]
          have := ih results (errors ++ [(url, e)]) hnd'
            (fun u hu => hkeys u (by simp [hu]))
          rw [this.1, this.2]
          simp [List.filter_cons, hsf]
          omega

/-- C8 counterexample: `scrape_multiple_urls` keys its result map by URL,
so a batch containing the same URL twice, both succeeding, yields one
result entry and zero errors — not the `N - K = 2` entries the claim
requires. -/
theorem scrape_multiple_urls_duplicate_counterexample :
    (scrape_multiple_urls (fun _ => some "<html>£9</html>")
        (fun _ _ => [pdict [("product_name", pstr "X")]])
        ["https://a.example/p", "https://a.example/p"] (fun _ => none)).2.length
      = 0 ∧
    ¬ ((scrape_multiple_urls (fun _ => some "<html>£9</html>")
        (fun _ _ => [pdict [("product_name", pstr "X")]])
        ["https://a.example/p", "https://a.example/p"] (fun _ => none)).1.length
      = ["https://a.example/p", "https://a.example/p"].length - 0) := by
  constructor <;> decide

/-- C8 (amended): for a batch of pairwise-distinct URLs, no per-URL
failure aborts the loop (the coordinator is a total function); the K
URLs failing at the fetch or extraction stage contribute exactly K
structured `{url, error}` entries, and the remaining N − K URLs exactly
the N − K entries of the per-URL result map. -/
theorem scrape_multiple_urls_partition (f : String → Option String)
    (ex : String → String → List PyVal) (urls : List String)
    (comp : String → Option String) (hnd : urls.Nodup) :
    (scrape_multiple_urls f ex urls comp).1.length =
        (urls.filter (urlSucceeds f ex)).length ∧
    (scrape_multiple_urls f ex urls comp).2.length =
        (urls.filter (fun u => ! urlSucceeds f ex u)).length ∧
    (scrape_multiple_urls f ex urls comp).1.length =
        urls.length - (scrape_multiple_urls f ex urls comp).2.length := by
  have h := scrapeLoop_counts f ex comp urls [] [] hnd (by simp)
  unfold scrape_multiple_urls
  refine ⟨by simpa using h.1, by simpa using h.2, ?_⟩
  have hp := filter_partition_length (urlSucceeds f ex) urls
  simp only [List.length_nil, Nat.zero_add] at h
  rw [h.1, h.2]
  omega

/-- Witness for the amended C8 theorem: two distinct URLs, one
succeeding and one failing at the fetch stage. -/
theorem scrape_multiple_urls_partition_witness :
    (scrape_multiple_urls
        (fun u => if u = "https://a.example/p" then some "<html>£9</html>" else none)
        (fun _ _ => [pdict [("product_name", pstr "X")]])
        ["https://a.example/p", "https://b.example/q"] (fun _ => none)).1.length =
        ((["https://a.example/p", "https://b.example/q"]).filter
          (urlSucceeds
            (fun u => if u = "https://a.example/p" then some "<html>£9</html>" else none)
            (fun _ _ => [pdict [("product_name", pstr "X")]]))).length ∧
    (scrape_multiple_urls
        (fun u => if u = "https://a.example/p" then some "<html>£9</html>" else none)
        (fun _ _ => [pdict [("product_name", pstr "X")]])
        ["https://a.example/p", "https://b.example/q"] (fun _ => none)).2.length =
        ((["https://a.example/p", "https://b.example/q"]).filter
          (fun u => ! urlSucceeds
            (fun u => if u = "https://a.example/p" then some "<html>£9</html>" else none)
            (fun _ _ => [pdict [("product_name", pstr "X")]]) u)).length ∧
    (scrape_multiple_urls
        (fun u => if u = "https://a.example/p" then some "<html>£9</html>" else none)
        (fun _ _ => [pdict [("product_name", pstr "X")]])
        ["https://a.example/p", "https://b.example/q"] (fun _ => none)).1.length =
        (["https://a.example/p", "https://b.example/q"]).length -
        (scrape_multiple_urls
          (fun u => if u = "https://a.example/p" then some "<html>£9</html>" else none)
          (fun _ _ => [pdict [("product_name", pstr "X")]])
          ["https://a.example/p", "https://b.example/q"] (fun _ => none)).2.length :=
  scrape_multiple_urls_partition
    (fun u => if u = "https://a.example/p" then some "<html>£9</html>" else none)
    (fun _ _ => [pdict [("product_name", pstr "X")]])
    ["https://a.example/p", "https://b.example/q"] (fun _ => none) (by decide)
